import Mathlib

/-!
Verification of the page-layout analysis pipeline of
`scripts/pdfParsingIRCCodeBook.py` (IRC 2021 code-book extractor).

The Python source is shallowly embedded: PDF coordinates and font sizes
(Python floats) are modelled as exact fractions (`Q` below, a
normalization-free rational so that every definition evaluates by kernel
reduction), Python strings as Lean `String`s manipulated through
`List Char`, dictionaries as structures, and fatal `RuntimeError`s as
`Except Err`.  Each definition mirrors one Python function of the source
and carries its (snake-case) name where possible.
-/

namespace IRC

/-! ### Exact fractions

`Q` is a rational number kept as an unreduced `num / den` pair with a
positive denominator.  Python float comparison (`==`, `<`, `<=`) is
modelled by the cross-multiplied numeric comparison, so two `Q` values
may be numerically equivalent (`≈`) without being structurally equal. -/

structure Q where
  num : Int
  den : Int
  dpos : 0 < den

namespace Q

instance : DecidableEq Q := fun a b =>
  if h1 : a.num = b.num then
    if h2 : a.den = b.den then
      .isTrue (by cases a; cases b; simp_all)
    else .isFalse (by intro he; cases he; exact h2 rfl)
  else .isFalse (by intro he; cases he; exact h1 rfl)

def ofInt (n : Int) : Q := ⟨n, 1, Int.zero_lt_one⟩

instance (n : Nat) : OfNat Q n := ⟨ofInt n⟩

def add (a b : Q) : Q :=
  ⟨a.num * b.den + b.num * a.den, a.den * b.den, mul_pos a.dpos b.dpos⟩

def neg (a : Q) : Q := ⟨-a.num, a.den, a.dpos⟩

def sub (a b : Q) : Q := add a (neg b)

def mul (a b : Q) : Q := ⟨a.num * b.num, a.den * b.den, mul_pos a.dpos b.dpos⟩

/-- Division; the zero-divisor case never occurs on the embedded code
paths (the source would raise `ZeroDivisionError`). -/
def div (a b : Q) : Q :=
  if h : 0 < b.num then ⟨a.num * b.den, a.den * b.num, mul_pos a.dpos h⟩
  else if h2 : b.num < 0 then
    ⟨-(a.num * b.den), a.den * (-b.num), mul_pos a.dpos (by omega)⟩
  else ofInt 0

instance : Add Q := ⟨add⟩
instance : Neg Q := ⟨neg⟩
instance : Sub Q := ⟨sub⟩
instance : Mul Q := ⟨mul⟩
instance : Div Q := ⟨div⟩

/-- Numeric (cross-multiplied) `≤`; this is the Python float `<=`. -/
def le (a b : Q) : Prop := a.num * b.den ≤ b.num * a.den

/-- Numeric (cross-multiplied) `<`; this is the Python float `<`. -/
def lt (a b : Q) : Prop := a.num * b.den < b.num * a.den

instance : LE Q := ⟨le⟩
instance : LT Q := ⟨lt⟩

instance (a b : Q) : Decidable (a ≤ b) :=
  inferInstanceAs (Decidable (a.num * b.den ≤ b.num * a.den))

instance (a b : Q) : Decidable (a < b) :=
  inferInstanceAs (Decidable (a.num * b.den < b.num * a.den))

/-- Numeric equality (the Python float `==`). -/
def eqv (a b : Q) : Prop := a.num * b.den = b.num * a.den

instance : HasEquiv Q := ⟨eqv⟩

instance (a b : Q) : Decidable (a ≈ b) :=
  inferInstanceAs (Decidable (a.num * b.den = b.num * a.den))

/-- Absolute value (Python `abs`). -/
def qabs (a : Q) : Q := if a.num < 0 then ⟨-a.num, a.den, a.dpos⟩ else a

/-- Python `max` on two floats: the second argument wins only if strictly
greater. -/
def qmax (a b : Q) : Q := if a < b then b else a

/-- Python `min` on two floats. -/
def qmin (a b : Q) : Q := if b < a then b else a

/-- Interpretation into Mathlib's rationals, used to transport order
lemmas. -/
def toRat (a : Q) : ℚ := (a.num : ℚ) / (a.den : ℚ)

theorem le_iff_toRat (a b : Q) : a ≤ b ↔ toRat a ≤ toRat b := by
  unfold toRat
  rw [div_le_div_iff₀ (by exact_mod_cast a.dpos) (by exact_mod_cast b.dpos)]
  constructor
  · intro h; exact_mod_cast h
  · intro h; exact_mod_cast h

theorem le_total (a b : Q) : a ≤ b ∨ b ≤ a := by
  rcases Int.le_total (a.num * b.den) (b.num * a.den) with h | h
  · exact Or.inl h
  · exact Or.inr h

theorem le_trans {a b c : Q} (h1 : a ≤ b) (h2 : b ≤ c) : a ≤ c := by
  rw [le_iff_toRat] at h1 h2 ⊢
  exact h1.trans h2

theorem le_refl (a : Q) : a ≤ a := Int.le_refl _

end Q

/-- A fatal, page-tagged pipeline error (Python `RuntimeError` carrying a
`RULE=<KIND> PDF_PAGE=<n>` message built by `format_error`). -/
structure Err where
  rule : String
  page : Option Nat
deriving DecidableEq, Repr

instance {ε α : Type} [DecidableEq ε] [DecidableEq α] : DecidableEq (Except ε α) :=
  fun x y =>
    match x, y with
    | .error e, .error f =>
      if h : e = f then .isTrue (congrArg Except.error h)
      else .isFalse (fun hh => h (by injection hh))
    | .error _, .ok _ => .isFalse (fun hh => Except.noConfusion hh)
    | .ok _, .error _ => .isFalse (fun hh => Except.noConfusion hh)
    | .ok a, .ok b =>
      if h : a = b then .isTrue (congrArg Except.ok h)
      else .isFalse (fun hh => h (by injection hh))

/-! ### String helpers (Python `str` operations used by the source) -/

/-- Python `\s` / `str.strip` whitespace for the ASCII subset in play. -/
def pyIsSpace (c : Char) : Bool :=
  c == ' ' || c == '\t' || c == '\n' || c == '\r' || c == '\x0b' || c == '\x0c'

/-- Whether `needle` starts `hay` (char lists). -/
def listStarts : List Char → List Char → Bool
  | [], _ => true
  | _ :: _, [] => false
  | a :: as, b :: bs => a == b && listStarts as bs

/-- Substring containment on char lists (Python `needle in hay`). -/
def listHasSub (needle : List Char) : List Char → Bool
  | [] => listStarts needle []
  | c :: rest => listStarts needle (c :: rest) || listHasSub needle rest

/-- Python `needle in hay` on strings. -/
def strHasSub (needle hay : String) : Bool :=
  listHasSub needle.toList hay.toList

/-- Python `str.upper()` (ASCII). -/
def strUpper (s : String) : String :=
  String.mk (s.toList.map Char.toUpper)

/-- Python `str.strip()`. -/
def strStrip (s : String) : String :=
  String.mk (((s.toList.dropWhile pyIsSpace).reverse.dropWhile pyIsSpace).reverse)

/-! ### C9 groundwork: the amendment keyword scan

Python source:
`AMENDMENT_RE = re.compile(r"\b(?:UTAH|STATE|AMENDED|MODIFIED|AMENDMENTS)\b", re.IGNORECASE)`
and `scan_for_amendment_indicators`, which searches
`f"{header_text} {footer_text}"` and raises `AMENDMENT_SCAN` on a match. -/

/-- The amendment keywords of `AMENDMENT_RE`, as char lists. -/
def amendmentKeywords : List (List Char) :=
  [String.toList "UTAH", String.toList "STATE", String.toList "AMENDED",
   String.toList "MODIFIED", String.toList "AMENDMENTS"]

/-- A regex word character (`\w`), restricted to the ASCII subset the
keywords can abut. -/
def wordChar (c : Char) : Bool :=
  c.isAlphanum || c == '_'

/-- Case-insensitive match of keyword `k` against a prefix of `s`,
returning the remainder on success (the `(?:UTAH|...)` core with
`re.IGNORECASE`). -/
def kwMatch : List Char → List Char → Option (List Char)
  | [], s => some s
  | _ :: _, [] => none
  | a :: ks, c :: cs => if c.toUpper == a then kwMatch ks cs else none

/-- The `\b` after a keyword: end of string or a non-word character. -/
def boundaryAfter : List Char → Bool
  | [] => true
  | c :: _ => !wordChar c

/-- The `\b` before a keyword: start of string or a non-word character
just before the current position. -/
def boundaryBefore : Option Char → Bool
  | none => true
  | some c => !wordChar c

/-- One attempt of `AMENDMENT_RE` at the current position. -/
def tryKeywordsAt (prev : Option Char) (s : List Char) : Bool :=
  boundaryBefore prev &&
    amendmentKeywords.any (fun k =>
      match kwMatch k s with
      | some rest => boundaryAfter rest
      | none => false)

/-- Search loop of `AMENDMENT_RE.search`: try every position left to
right, remembering the previous character for the leading `\b`. -/
def scanPositions (prev : Option Char) : List Char → Bool
  | [] => false
  | c :: rest => tryKeywordsAt prev (c :: rest) || scanPositions (some c) rest

/-- Result of `AMENDMENT_RE.search(combined) is not None`. -/
def amendmentSearch (s : String) : Bool :=
  scanPositions none s.toList

/-- Embedding of `scan_for_amendment_indicators(page_num, header_text,
footer_text)`: raises `AMENDMENT_SCAN` iff the regex finds a match in
the combined header-space-footer text. -/
def scan_for_amendment_indicators (page_num : Nat) (header_text footer_text : String) :
    Except Err Unit :=
  let combined := header_text ++ " " ++ footer_text
  if amendmentSearch combined then
    .error ⟨"AMENDMENT_SCAN", some page_num⟩
  else
    .ok ()

/-- Spec-side predicate (from the spec's words): the text contains a
whole-word, case-insensitive occurrence of one of the five keywords. -/
def WholeWordKeywordMatch (s : List Char) : Prop :=
  ∃ pre w post k, k ∈ amendmentKeywords ∧ s = pre ++ w ++ post ∧
    w.map Char.toUpper = k ∧
    (pre = [] ∨ ∃ c, pre.getLast? = some c ∧ wordChar c = false) ∧
    (post = [] ∨ ∃ c, post.head? = some c ∧ wordChar c = false)

theorem kwMatch_some_iff (k s rest : List Char) :
    kwMatch k s = some rest ↔ ∃ w, s = w ++ rest ∧ w.map Char.toUpper = k := by
  induction k generalizing s with
  | nil =>
    simp only [kwMatch, Option.some.injEq]
    constructor
    · rintro rfl; exact ⟨[], rfl, rfl⟩
    · rintro ⟨w, rfl, hw⟩
      have : w = [] := by
        cases w with
        | nil => rfl
        | cons a as => simp at hw
      simp [this]
  | cons a ks ih =>
    cases s with
    | nil =>
      simp only [kwMatch]
      constructor
      · intro h; exact absurd h (by simp)
      · rintro ⟨w, hw, hmap⟩
        cases w with
        | nil => simp at hmap
        | cons b bs => simp at hw
    | cons c cs =>
      simp only [kwMatch]
      by_cases hc : c.toUpper = a
      · simp only [hc, beq_self_eq_true, if_true, ih]
        constructor
        · rintro ⟨w, rfl, hw⟩
          exact ⟨c :: w, rfl, by simp [hc, hw]⟩
        · rintro ⟨w, hw, hmap⟩
          cases w with
          | nil => simp at hmap
          | cons b bs =>
            simp only [List.cons_append, List.cons.injEq] at hw
            obtain ⟨rfl, rfl⟩ := hw
            simp only [List.map_cons, List.cons.injEq] at hmap
            exact ⟨bs, rfl, hmap.2⟩
      · simp only [show (c.toUpper == a) = false from beq_eq_false_iff_ne.2 hc, if_false]
        constructor
        · intro h; exact absurd h (by simp)
        · rintro ⟨w, hw, hmap⟩
          cases w with
          | nil => simp at hmap
          | cons b bs =>
            simp only [List.cons_append, List.cons.injEq] at hw
            simp only [List.map_cons, List.cons.injEq] at hmap
            exact absurd (hw.1 ▸ hmap.1) hc

/-- Relation between the scanner's `prev` character and a decomposition's
prefix: the `\b` before the keyword holds. -/
def preOk (prev : Option Char) (pre : List Char) : Prop :=
  (pre = [] ∧ boundaryBefore prev = true) ∨
    (∃ c, pre.getLast? = some c ∧ wordChar c = false)

theorem scanPositions_iff (prev : Option Char) (s : List Char) :
    scanPositions prev s = true ↔
      ∃ pre w post k, k ∈ amendmentKeywords ∧ s = pre ++ w ++ post ∧
        w.map Char.toUpper = k ∧ preOk prev pre ∧
        (post = [] ∨ ∃ c, post.head? = some c ∧ wordChar c = false) := by
  induction s generalizing prev with
  | nil =>
    simp only [scanPositions]
    constructor
    · intro h; exact absurd h (by simp)
    · rintro ⟨pre, w, post, k, hk, hs, hmap, _, _⟩
      obtain ⟨h1, rfl⟩ := List.append_eq_nil.mp hs.symm
      obtain ⟨rfl, rfl⟩ := List.append_eq_nil.mp h1
      simp only [List.map_nil] at hmap
      subst hmap
      exact absurd hk (by decide)
  | cons c rest ih =>
    simp only [scanPositions, Bool.or_eq_true]
    constructor
    · rintro (h | h)
      · -- a keyword matches right here
        simp only [tryKeywordsAt, Bool.and_eq_true, List.any_eq_true] at h
        obtain ⟨hb, k, hk, hmatch⟩ := h
        cases hkm : kwMatch k (c :: rest) with
        | none => rw [hkm] at hmatch; exact absurd hmatch (by simp)
        | some r =>
          rw [hkm] at hmatch
          obtain ⟨w, hw, hmap⟩ := (kwMatch_some_iff k (c :: rest) r).1 hkm
          refine ⟨[], w, r, k, hk, by simpa using hw, hmap, Or.inl ⟨rfl, hb⟩, ?_⟩
          cases r with
          | nil => exact Or.inl rfl
          | cons d ds =>
            refine Or.inr ⟨d, rfl, ?_⟩
            simpa [boundaryAfter] using hmatch
      · -- a keyword matches strictly later
        obtain ⟨pre, w, post, k, hk, hs, hmap, hpre, hpost⟩ := (ih (some c)).1 h
        refine ⟨c :: pre, w, post, k, hk, by simp [hs], hmap, ?_, hpost⟩
        rcases hpre with ⟨rfl, hb⟩ | ⟨d, hd, hw⟩
        · exact Or.inr ⟨c, by simp, by simpa [boundaryBefore] using hb⟩
        · refine Or.inr ⟨d, ?_, hw⟩
          cases pre with
          | nil => simp at hd
          | cons e es => simpa using hd
    · rintro ⟨pre, w, post, k, hk, hs, hmap, hpre, hpost⟩
      cases pre with
      | nil =>
        -- match at the current position
        left
        simp only [List.nil_append] at hs
        have hw : w ≠ [] := by
          intro hwe
          subst hwe
          simp only [List.map_nil] at hmap
          subst hmap
          exact absurd hk (by decide)
        simp only [tryKeywordsAt, Bool.and_eq_true, List.any_eq_true]
        constructor
        · rcases hpre with ⟨_, hb⟩ | ⟨d, hd, _⟩
          · exact hb
          · simp at hd
        · refine ⟨k, hk, ?_⟩
          have hkm : kwMatch k (c :: rest) = some post :=
            (kwMatch_some_iff k (c :: rest) post).2 ⟨w, hs, hmap⟩
          rw [hkm]
          rcases hpost with rfl | ⟨d, hd, hdw⟩
          · simp [boundaryAfter]
          · cases post with
            | nil => simp at hd
            | cons e es =>
              simp only [List.head?_cons, Option.some.injEq] at hd
              subst hd
              simp [boundaryAfter, hdw]
      | cons p ps =>
        -- match strictly later
        right
        simp only [List.cons_append, List.cons.injEq] at hs
        obtain ⟨rfl, hs⟩ := hs
        refine (ih (some c)).2 ⟨ps, w, post, k, hk, hs, hmap, ?_, hpost⟩
        cases ps with
        | nil =>
          rcases hpre with ⟨h, _⟩ | ⟨d, hd, hdw⟩
          · simp at h
          · simp only [List.getLast?_singleton, Option.some.injEq] at hd
            subst hd
            exact Or.inl ⟨rfl, by simp [boundaryBefore, hdw]⟩
        | cons q qs =>
          rcases hpre with ⟨h, _⟩ | ⟨d, hd, hdw⟩
          · simp at h
          · refine Or.inr ⟨d, ?_, hdw⟩
            rw [List.getLast?_cons_cons] at hd
            exact hd

theorem amendmentSearch_iff (s : String) :
    amendmentSearch s = true ↔ WholeWordKeywordMatch s.toList := by
  unfold amendmentSearch WholeWordKeywordMatch
  rw [scanPositions_iff]
  constructor
  · rintro ⟨pre, w, post, k, hk, hs, hmap, hpre, hpost⟩
    refine ⟨pre, w, post, k, hk, hs, hmap, ?_, hpost⟩
    rcases hpre with ⟨rfl, _⟩ | h
    · exact Or.inl rfl
    · exact Or.inr h
  · rintro ⟨pre, w, post, k, hk, hs, hmap, hpre, hpost⟩
    refine ⟨pre, w, post, k, hk, hs, hmap, ?_, hpost⟩
    rcases hpre with rfl | h
    · exact Or.inl ⟨rfl, rfl⟩
    · exact Or.inr h

/-- **C9.** For every processed page, `scan_for_amendment_indicators` fails
with `AMENDMENT_SCAN` tagged with that page number exactly when the
concatenated header-plus-footer text contains a whole-word,
case-insensitive match of one of UTAH, STATE, AMENDED, MODIFIED,
AMENDMENTS; with no such match no `AMENDMENT_SCAN` error is raised. -/
theorem amendment_scan_iff_whole_word_match (page_num : Nat)
    (header_text footer_text : String) :
    scan_for_amendment_indicators page_num header_text footer_text =
        .error ⟨"AMENDMENT_SCAN", some page_num⟩ ↔
      WholeWordKeywordMatch (header_text ++ " " ++ footer_text).toList := by
  unfold scan_for_amendment_indicators
  rw [← amendmentSearch_iff]
  by_cases h : amendmentSearch (header_text ++ " " ++ footer_text) = true
  · simp [h]
  · simp [h]

/-! ### C3 groundwork: table rotation selection

Python source: `extract_tables_with_rotation`, lines 2156–2193.  For each
rotation `r ∈ [0, 90, 270]` the loop has computed an entry with
`orientation_score`, `total_intersections` and `total_area`; the list is
then sorted ascending by the key
`(orientation_score, total_intersections, total_area, -rotation)`, the
best (last) and second entries are compared, and ties are resolved or
rejected.  The embedding takes the three per-rotation statistics as input
and mirrors the selection exactly. -/

/-- Per-rotation statistics computed by the rotation loop. -/
structure RotStats where
  orientation_score : Nat
  total_intersections : Nat
  total_area : Q
deriving DecidableEq

/-- One entry of `rotation_results`. -/
structure RotResult where
  rotation : Nat
  orientation_score : Nat
  total_intersections : Nat
  total_area : Q
deriving DecidableEq

/-- Python's ascending tuple comparison on the sort key
`(orientation_score, total_intersections, total_area, -rotation)`
(float components compare numerically). -/
def rotLe (a b : RotResult) : Prop :=
  a.orientation_score < b.orientation_score ∨
    (a.orientation_score = b.orientation_score ∧
      (a.total_intersections < b.total_intersections ∨
        (a.total_intersections = b.total_intersections ∧
          (a.total_area < b.total_area ∨
            (a.total_area ≈ b.total_area ∧
              -(a.rotation : Int) ≤ -(b.rotation : Int))))))

instance : DecidableRel rotLe := fun a b => by unfold rotLe; infer_instance

/-- Entries built by the `for rotation in [0, 90, 270]` loop. -/
def mkRotResults (s0 s90 s270 : RotStats) : List RotResult :=
  [⟨0, s0.orientation_score, s0.total_intersections, s0.total_area⟩,
   ⟨90, s90.orientation_score, s90.total_intersections, s90.total_area⟩,
   ⟨270, s270.orientation_score, s270.total_intersections, s270.total_area⟩]

/-- The `best`/`second` comparison: equality on the first three key
components (`orientation_score`, `total_intersections`, `total_area`). -/
def rotTie (b c : RotResult) : Prop :=
  c.orientation_score = b.orientation_score ∧
    c.total_intersections = b.total_intersections ∧
    c.total_area ≈ b.total_area

instance (b c : RotResult) : Decidable (rotTie b c) := by
  unfold rotTie; infer_instance

/-- The selection tail of `extract_tables_with_rotation`: `sorted` is the
ascending-sorted `rotation_results`, `c` its last element (`best`), `b`
the second-to-last (`second`).  Returns `(chosen_rotation, tie_breaker)`
or the fatal error. -/
def selectRotationCore (page_num : Nat) (sorted : List RotResult)
    (b c : RotResult) : Except Err (Option Nat × Option String) :=
  if 0 < c.total_intersections ∧ rotTie b c then
    if c.orientation_score = 0 ∧ b.orientation_score = 0 then
      let best := (sorted.find? (fun r => r.rotation == 0)).getD c
      if best.total_intersections ≤ 0 then .ok (none, some "default_rotation_0")
      else .ok (some best.rotation, some "default_rotation_0")
    else .error ⟨"TABLE_ROTATION_AMBIGUOUS", some page_num⟩
  else if c.total_intersections ≤ 0 then .ok (none, none)
  else .ok (some c.rotation, none)

/-- Embedding of the rotation choice of `extract_tables_with_rotation`
(sort, take last two, resolve or reject ties). -/
def extract_tables_rotation_choice (page_num : Nat) (s0 s90 s270 : RotStats) :
    Except Err (Option Nat × Option String) :=
  match List.insertionSort rotLe (mkRotResults s0 s90 s270) with
  | [a, b, c] => selectRotationCore page_num [a, b, c] b c
  | _ => .error ⟨"UNREACHABLE", none⟩

/-- Claim C3 as stated, at one input: whenever the top two rotations tie
on the first three key components, the run defaults to rotation 0 with a
warning if both orientation scores are 0, and otherwise fails with
`TABLE_ROTATION_AMBIGUOUS`. -/
def rotationClaimHolds (page_num : Nat) (s0 s90 s270 : RotStats) : Prop :=
  match List.insertionSort rotLe (mkRotResults s0 s90 s270) with
  | [_, b, c] =>
    rotTie b c →
      (if c.orientation_score = 0 ∧ b.orientation_score = 0 then
        extract_tables_rotation_choice page_num s0 s90 s270 =
          .ok (some 0, some "default_rotation_0")
      else
        extract_tables_rotation_choice page_num s0 s90 s270 =
          .error ⟨"TABLE_ROTATION_AMBIGUOUS", some page_num⟩)
  | _ => True

/-- **C3 counterexample.** When no rotation produces any grid (all
statistics zero) the top two rotations tie on all three key components
with both orientation scores 0, yet the code returns no chosen rotation
and no tie warning, instead of defaulting to rotation 0 with a warning
as the claim states. -/
theorem rotation_tie_claim_fails_on_zero_stats :
    ¬ rotationClaimHolds 1 ⟨0, 0, 0⟩ ⟨0, 0, 0⟩ ⟨0, 0, 0⟩ ∧
      extract_tables_rotation_choice 1 ⟨0, 0, 0⟩ ⟨0, 0, 0⟩ ⟨0, 0, 0⟩ =
        .ok (none, none) := by
  constructor
  · unfold rotationClaimHolds
    have hs : List.insertionSort rotLe
        (mkRotResults ⟨0, 0, 0⟩ ⟨0, 0, 0⟩ ⟨0, 0, 0⟩) =
        [⟨270, 0, 0, 0⟩, ⟨90, 0, 0, 0⟩, ⟨0, 0, 0, 0⟩] := by decide
    rw [hs]
    intro h
    have h2 := h ⟨rfl, rfl, rfl⟩
    rw [if_pos ⟨rfl, rfl⟩] at h2
    have h3 : extract_tables_rotation_choice 1 ⟨0, 0, 0⟩ ⟨0, 0, 0⟩ ⟨0, 0, 0⟩ =
        .ok (none, none) := by decide
    rw [h3] at h2
    simp at h2
  · decide

/-- **C3 (amended).** Ranking rotations ascending by
`(orientation_score, total_intersection_count, total_area, -r)` with
best the maximum: when the best rotation has a positive intersection
count and ties with the second on the first three components, the run
defaults to the rotation-0 entry with a `default_rotation_0` warning if
both orientation scores are 0 (choosing no rotation at all if that entry
has no intersections), and otherwise fails with
`TABLE_ROTATION_AMBIGUOUS`; when the best has no intersections the run
chooses no rotation and records no warning; with intersections and no
tie the best rotation is chosen. -/
theorem rotation_choice_characterization (page_num : Nat)
    (s0 s90 s270 : RotStats) (a b c : RotResult)
    (hs : List.insertionSort rotLe (mkRotResults s0 s90 s270) = [a, b, c]) :
    (c.total_intersections = 0 →
        extract_tables_rotation_choice page_num s0 s90 s270 = .ok (none, none)) ∧
    (0 < c.total_intersections → rotTie b c →
      c.orientation_score = 0 → b.orientation_score = 0 →
        extract_tables_rotation_choice page_num s0 s90 s270 =
          .ok
            (if (([a, b, c].find? (fun r => r.rotation == 0)).getD c).total_intersections = 0
              then none
              else some (([a, b, c].find? (fun r => r.rotation == 0)).getD c).rotation,
             some "default_rotation_0")) ∧
    (0 < c.total_intersections → rotTie b c →
      ¬ (c.orientation_score = 0 ∧ b.orientation_score = 0) →
        extract_tables_rotation_choice page_num s0 s90 s270 =
          .error ⟨"TABLE_ROTATION_AMBIGUOUS", some page_num⟩) ∧
    (0 < c.total_intersections → ¬ rotTie b c →
        extract_tables_rotation_choice page_num s0 s90 s270 =
          .ok (some c.rotation, none)) := by
  unfold extract_tables_rotation_choice
  rw [hs]
  unfold selectRotationCore
  refine ⟨?_, ?_, ?_, ?_⟩
  · intro h0
    have hn : ¬ (0 < c.total_intersections ∧ rotTie b c) := by
      rintro ⟨h, _⟩; omega
    simp [hn, h0]
  · intro hpos htie h0 hb0
    simp only [if_pos (And.intro hpos htie), if_pos (And.intro h0 hb0)]
    by_cases hz :
        (([a, b, c].find? (fun r => r.rotation == 0)).getD c).total_intersections = 0
    · simp [hz, Nat.le_zero]
    · have : ¬ (([a, b, c].find? (fun r => r.rotation == 0)).getD c).total_intersections ≤ 0 := by
        omega
      simp [hz, this]
  · intro hpos htie hne
    simp [if_pos (And.intro hpos htie), hne]
  · intro hpos htie
    have hn : ¬ (0 < c.total_intersections ∧ rotTie b c) := by
      rintro ⟨_, h⟩; exact htie h
    have hle : ¬ c.total_intersections ≤ 0 := by omega
    simp [hn, hle]

/-- Witness for `rotation_choice_characterization` at concrete
statistics: a clear winner (rotation 0) with positive intersections. -/
theorem rotation_choice_characterization_witness :
    extract_tables_rotation_choice 7 ⟨2, 4, 1⟩ ⟨1, 4, 1⟩ ⟨0, 4, 1⟩ =
      .ok (some 0, none) := by
  have h := rotation_choice_characterization 7 ⟨2, 4, 1⟩ ⟨1, 4, 1⟩ ⟨0, 4, 1⟩
    ⟨270, 0, 4, 1⟩ ⟨90, 1, 4, 1⟩ ⟨0, 2, 4, 1⟩ (by decide)
  exact h.2.2.2 (by decide) (by decide)

/-! ### Geometry records -/

/-- A word token as produced by `page.extract_words` (bbox, text, font
metadata). -/
structure Word where
  x0 : Q
  x1 : Q
  top : Q
  bottom : Q
  text : String
  size : Option Q
  fontname : String
deriving DecidableEq

/-- An axis-aligned bbox `(x0, top, x1, bottom)`. -/
abbrev BBox := Q × Q × Q × Q

/-- Embedding of `inside_any_table`: the word's center point lies in some
table bbox (inclusive). -/
def inside_any_table (w : Word) (table_bboxes : List BBox) : Bool :=
  let x := (w.x0 + w.x1) / 2
  let y := (w.top + w.bottom) / 2
  table_bboxes.any (fun b =>
    decide (b.1 ≤ x) && decide (x ≤ b.2.2.1) && decide (b.2.1 ≤ y) && decide (y ≤ b.2.2.2))

/-- Matcher for the pattern `^[A-Z]$` (a single ASCII uppercase letter). -/
def isSingleUpper (s : String) : Bool :=
  match s.toList with
  | [c] => c.isUpper
  | _ => false

/-! ### C4 groundwork: the cross-split check

Python source: the final loop of `detect_column_split`, lines 655–694,
together with `is_center_spanning_token` (lines 327–351).  `gutter_left`
and `gutter_right` are the `best_left`/`best_right` values in scope at
line 655 (after the index-letter gutter extension). -/

/-- Embedding of `is_center_spanning_token` (the `eps = 2.0` default is
used by the cross-split loop).  The word's `bottom`/`top` are always
present in the embedded record, so the `.get` defaults collapse. -/
def is_center_spanning_token (word : Word) (split_x gutter_left gutter_right : Q)
    (_page_width page_median_word_height : Q) (table_bboxes : List BBox)
    (eps : Q := 2) : Bool :=
  isSingleUpper (strStrip word.text) &&
    decide (word.x0 < split_x) && decide (split_x < word.x1) &&
    decide (gutter_left - eps ≤ word.x0) && decide (word.x1 ≤ gutter_right + eps) &&
    decide ((9 : Q) / 10 * page_median_word_height ≤ word.bottom - word.top) &&
    !inside_any_table word table_bboxes

/-- Embedding of the cross-split loop of `detect_column_split`
(lines 655–694): raise `COLUMN_SPLIT_CROSS` on the first body word that
straddles `split_x` and survives every skip condition while its center
is farther than the allowed delta from `split_x`. -/
def cross_split_check (split_x gutter_left gutter_right page_width
    median_char_width page_median_word_height : Q) (table_bboxes : List BBox)
    (relax_cross_check : Bool) (page_num : Nat) :
    List Word → Except Err Unit
  | [] => .ok ()
  | w :: rest =>
    let next := cross_split_check split_x gutter_left gutter_right page_width
      median_char_width page_median_word_height table_bboxes relax_cross_check
      page_num rest
    if w.x0 < split_x ∧ split_x < w.x1 then
      let center := (w.x0 + w.x1) / 2
      let width := w.x1 - w.x0
      let text := strStrip w.text
      if width ≤ median_char_width * 4 then next
      else if text.length ≤ 2 ∧ width ≤ median_char_width * 12 then next
      else if is_center_spanning_token w split_x gutter_left gutter_right
          page_width page_median_word_height table_bboxes then next
      else
        let allowed_center_delta : Q := 2 * (if relax_cross_check then 2 else 1)
        if Q.qabs (center - split_x) ≤ allowed_center_delta then next
        else .error ⟨"COLUMN_SPLIT_CROSS", some page_num⟩
    else next

/-- **C4 counterexample.** The claim says a straddling body word passes
only via exception (a) (center within 2 pt of the split) or (b) (the
center-spanning token test); but a three-letter word of width at most
four median char widths straddling the split with its center 5 pt away
is silently allowed — the width-based skip is an additional exception
the claim does not admit. -/
theorem cross_split_claim_fails_on_narrow_word :
    ¬ (cross_split_check 200 195 205 600 10 10 [] false 1
          [⟨190, 220, 100, 110, "xyz", none, "Helvetica"⟩] = .ok () →
        ∀ w ∈ [(⟨190, 220, 100, 110, "xyz", none, "Helvetica"⟩ : Word)],
          w.x0 < 200 ∧ 200 < w.x1 →
            Q.qabs (((w.x0 + w.x1) / 2) - 200) ≤ 2 ∨
              is_center_spanning_token w 200 195 205 600 10 [] = true) := by
  intro h
  have hb := h (by decide)
  have hw := hb ⟨190, 220, 100, 110, "xyz", none, "Helvetica"⟩ (by decide) (by decide)
  rcases hw with hw | hw
  · exact absurd hw (by decide)
  · exact absurd hw (by decide)

/-- **C4 (amended).** A body word whose bbox straddles the split is
allowed exactly when one of these holds: (c) its width is at most
`4 · median char width`; (d) its stripped text has at most 2 characters
and its width is at most `12 · median char width`; (b) it passes the
center-spanning-token test (single uppercase letter, at least
`0.9 · median word height`, inside the gutter within 2 pt, outside every
table bbox); or (a) its center lies within the allowed delta of the
split — 2 pt, doubled to 4 pt when the relaxed flag is set.  Otherwise
the run fails with `COLUMN_SPLIT_CROSS`. -/
theorem cross_split_check_ok_iff (split_x gutter_left gutter_right page_width
    median_char_width page_median_word_height : Q) (table_bboxes : List BBox)
    (relax_cross_check : Bool) (page_num : Nat) (words : List Word) :
    cross_split_check split_x gutter_left gutter_right page_width
        median_char_width page_median_word_height table_bboxes
        relax_cross_check page_num words = .ok () ↔
      ∀ w ∈ words, w.x0 < split_x ∧ split_x < w.x1 →
        w.x1 - w.x0 ≤ median_char_width * 4 ∨
        ((strStrip w.text).length ≤ 2 ∧ w.x1 - w.x0 ≤ median_char_width * 12) ∨
        is_center_spanning_token w split_x gutter_left gutter_right
          page_width page_median_word_height table_bboxes = true ∨
        Q.qabs (((w.x0 + w.x1) / 2) - split_x) ≤ 2 * (if relax_cross_check then 2 else 1) := by
  induction words with
  | nil => simp [cross_split_check]
  | cons w rest ih =>
    simp only [cross_split_check]
    by_cases hstr : w.x0 < split_x ∧ split_x < w.x1
    · rw [if_pos hstr]
      by_cases h1 : w.x1 - w.x0 ≤ median_char_width * 4
      · rw [if_pos h1, ih]
        constructor
        · intro hall
          intro v hv hvs
          rcases List.mem_cons.mp hv with rfl | hv
          · exact Or.inl h1
          · exact hall v hv hvs
        · intro hall v hv hvs
          exact hall v (List.mem_cons_of_mem _ hv) hvs
      · rw [if_neg h1]
        by_cases h2 : (strStrip w.text).length ≤ 2 ∧ w.x1 - w.x0 ≤ median_char_width * 12
        · rw [if_pos h2, ih]
          constructor
          · intro hall v hv hvs
            rcases List.mem_cons.mp hv with rfl | hv
            · exact Or.inr (Or.inl h2)
            · exact hall v hv hvs
          · intro hall v hv hvs
            exact hall v (List.mem_cons_of_mem _ hv) hvs
        · rw [if_neg h2]
          by_cases h3 : is_center_spanning_token w split_x gutter_left gutter_right
              page_width page_median_word_height table_bboxes = true
          · rw [if_pos h3, ih]
            constructor
            · intro hall v hv hvs
              rcases List.mem_cons.mp hv with rfl | hv
              · exact Or.inr (Or.inr (Or.inl h3))
              · exact hall v hv hvs
            · intro hall v hv hvs
              exact hall v (List.mem_cons_of_mem _ hv) hvs
          · rw [if_neg h3]
            by_cases h4 : Q.qabs (((w.x0 + w.x1) / 2) - split_x) ≤
                2 * (if relax_cross_check then (2 : Q) else 1)
            · rw [if_pos h4, ih]
              constructor
              · intro hall v hv hvs
                rcases List.mem_cons.mp hv with rfl | hv
                · exact Or.inr (Or.inr (Or.inr h4))
                · exact hall v hv hvs
              · intro hall v hv hvs
                exact hall v (List.mem_cons_of_mem _ hv) hvs
            · rw [if_neg h4]
              constructor
              · intro h; exact absurd h (by simp)
              · intro hall
                have := hall w (List.mem_cons_self _ _) hstr
                rcases this with h | h | h | h
                · exact absurd h h1
                · exact absurd h h2
                · exact absurd h h3
                · exact absurd h h4
    · rw [if_neg hstr, ih]
      constructor
      · intro hall v hv hvs
        rcases List.mem_cons.mp hv with rfl | hv
        · exact absurd hvs hstr
        · exact hall v hv hvs
      · intro hall v hv hvs
        exact hall v (List.mem_cons_of_mem _ hv) hvs

/-- Witness for `cross_split_check_ok_iff`: a page whose only straddling
word is a tall centered index letter passes the check. -/
theorem cross_split_check_ok_iff_witness :
    cross_split_check 200 195 205 600 ⟨3, 2, by omega⟩ 10 [] false 1
        [⟨30, 80, 100, 110, "body", none, "Helvetica"⟩,
         ⟨196, 204, 100, 111, "A", none, "Helvetica"⟩] = .ok () := by
  exact (cross_split_check_ok_iff 200 195 205 600 ⟨3, 2, by omega⟩ 10 [] false 1
    [⟨30, 80, 100, 110, "body", none, "Helvetica"⟩,
     ⟨196, 204, 100, 111, "A", none, "Helvetica"⟩]).2 (by decide)

/-! ### Canonical-id matching

Executable matchers for the anchored regexes of the source.  The id core
`[A-Z]{1,3}\d{3,4}(?:\.\d+){0,cap}` (with `re.IGNORECASE`) is matched
with Python's leftmost-greedy backtracking semantics: the letter and
digit runs are maximal (smaller choices always leave a word character at
the boundary and fail), dotted groups are consumed greedily, and when
the trailing `\b` fails because a word character follows the last digit
run, exactly one whole group is dropped (the boundary before its dot
then succeeds).  Line texts contain no newline, so `.`/`$` subtleties of
the Python patterns do not arise. -/

/-- Length of the leading ASCII digit run. -/
def digitRunLen (s : List Char) : Nat := (s.takeWhile Char.isDigit).length

/-- Length of the leading ASCII alphanumeric run (`[0-9A-Z]+` with
`re.IGNORECASE`). -/
def alnumRunLen (s : List Char) : Nat := (s.takeWhile Char.isAlphanum).length

/-- Greedy consumption of `(?:\.\d+)` groups starting at `pos` (the end
of a digit run); returns the final position and the position of the stop
before the last consumed group (for the one-group backtrack). -/
def idGroupsLoop (s : List Char) (cap : Option Nat) :
    Nat → Nat → Nat → Option Nat → Nat × Option Nat
  | 0, pos, _, prev => (pos, prev)
  | fuel + 1, pos, reps, prev =>
    if (match cap with | some m => decide (m ≤ reps) | none => false) = true then
      (pos, prev)
    else
      match s.get? pos with
      | some c =>
        if c == '.' then
          let e := digitRunLen (s.drop (pos + 1))
          if 1 ≤ e then idGroupsLoop s cap fuel (pos + 1 + e) (reps + 1) (some pos)
          else (pos, prev)
        else (pos, prev)
      | none => (pos, prev)

/-- Resolve the `\b` after the id: succeed at `pos` if the next character
is absent or a non-word character; otherwise drop the last dotted group
(backtracking) and succeed before its dot; fail with no group to drop. -/
def resolveIdEnd (s : List Char) (pos : Nat) (prev : Option Nat) : Option Nat :=
  match s.get? pos with
  | none => some pos
  | some c =>
    if wordChar c then
      match prev with
      | some p => some p
      | none => none
    else some pos

/-- Resolve the optional `(?:\([0-9A-Z]+\))?` variant followed by `\b`:
after `)` (a non-word character) the `\b` holds only when a word
character follows, so a variant followed by space or end of line is
dropped from the captured id. -/
def resolveTableIdEnd (s : List Char) (pos : Nat) (prev : Option Nat) : Option Nat :=
  let variantEnd :=
    match s.get? pos with
    | some c =>
      if c == '(' then
        let e := alnumRunLen (s.drop (pos + 1))
        if 1 ≤ e ∧ s.get? (pos + 1 + e) = some ')' then
          match s.get? (pos + 2 + e) with
          | some d => if wordChar d then some (pos + 2 + e) else none
          | none => none
        else none
      else none
    | none => none
  match variantEnd with
  | some e => some e
  | none => resolveIdEnd s pos prev

/-- Match the id core `[A-Z]{1,3}\d{3,4}(?:\.\d+){0,cap}` (optionally
with the table-label variant) at the start of `s`; returns the length of
the captured id. -/
def matchIdAt (s : List Char) (cap : Option Nat) (allowVariant : Bool) : Option Nat :=
  let L := (s.takeWhile Char.isAlpha).length
  if L = 0 ∨ 3 < L then none
  else
    let s1 := s.drop L
    let D := digitRunLen s1
    if D < 3 ∨ 4 < D then none
    else
      let r := idGroupsLoop s cap (s.length + 1) (L + D) 0 none
      if allowVariant then resolveTableIdEnd s r.1 r.2
      else resolveIdEnd s r.1 r.2

/-- Case-insensitive consumption of a literal, returning the remainder. -/
def consumeCI : List Char → List Char → Option (List Char)
  | [], s => some s
  | _ :: _, [] => none
  | a :: ks, c :: cs => if c.toUpper == a.toUpper then consumeCI ks cs else none

/-- Embedding of `parse_true_section_heading` (lines 1519–1535): match
`^\s*([A-Z]{1,3}\d{3,4}(?:\.\d+){0,6})\b(.*)$`, reject when `(` follows
the id, require the remainder (left-stripped) to start with an uppercase
letter. -/
def parse_true_section_heading (line_text : String) : Option String :=
  let s := line_text.toList
  let s1 := s.dropWhile pyIsSpace
  match matchIdAt s1 (some 6) false with
  | none => none
  | some idEnd =>
    if s1.get? idEnd = some '(' then none
    else
      let rest := (s1.drop idEnd).dropWhile pyIsSpace
      match rest with
      | [] => none
      | c :: _ =>
        if c.isAlpha && c.isUpper then some (String.mk (s1.take idEnd)) else none

/-- Embedding of `parse_section_marker_line` (lines 1538–1546): match
`^\s*SECTION\s+([A-Z]{1,3}\d{3,4}(?:\.\d+){0,6})\b`. -/
def parse_section_marker_line (line_text : String) : Option String :=
  let s := (line_text.toList).dropWhile pyIsSpace
  match consumeCI ("SECTION".toList) s with
  | none => none
  | some s1 =>
    let w := (s1.takeWhile pyIsSpace).length
    if w = 0 then none
    else
      let s2 := s1.drop w
      match matchIdAt s2 (some 6) false with
      | none => none
      | some idEnd => some (String.mk (s2.take idEnd))

/-- Embedding of `TABLE_LABEL_RE.match`
(`^TABLE\s+([A-Z]{1,3}\d{3,4}(?:\.\d+)*(?:\([0-9A-Z]+\))?)\b\.?\s*(.*)?$`):
returns the captured id and the trailing title text. -/
def tableLabelMatch (line_text : String) : Option (String × String) :=
  let s := line_text.toList
  match consumeCI ("TABLE".toList) s with
  | none => none
  | some s1 =>
    let w := (s1.takeWhile pyIsSpace).length
    if w = 0 then none
    else
      let s2 := s1.drop w
      match matchIdAt s2 none true with
      | none => none
      | some idEnd =>
        let id := String.mk (s2.take idEnd)
        let after := s2.drop idEnd
        let after1 :=
          match after with
          | '.' :: rest => rest
          | _ => after
        some (id, String.mk (after1.dropWhile pyIsSpace))

/-! ### C7 groundwork: table label binding

Python source: `find_table_label_for_bbox` (lines 2218–2289) and the
unlabeled-table fallback in `main` (lines 2798–2804). -/

/-- A label-layer line (as built by `build_label_lines`); such lines
always carry `x0`, `x1`, `top` and `bottom`, so the `.get` defaults of
the source collapse. -/
structure LabelLine where
  text : String
  x0 : Q
  x1 : Q
  top : Q
  bottom : Q
deriving DecidableEq

/-- Key-based comparison used when mirroring Python's stable
`list.sort(key=...)`. -/
def keyLe {α : Type} (key : α → Q) (a b : α) : Prop := key a ≤ key b

instance {α : Type} (key : α → Q) : DecidableRel (keyLe key) := fun a b =>
  inferInstanceAs (Decidable (key a ≤ key b))

instance {α : Type} (key : α → Q) : IsTotal α (keyLe key) :=
  ⟨fun a b => Q.le_total (key a) (key b)⟩

instance {α : Type} (key : α → Q) : IsTrans α (keyLe key) :=
  ⟨fun _ _ _ h1 h2 => Q.le_trans h1 h2⟩

/-- The x-overlapping lines matching the TABLE-label pattern (loop at
lines 2231–2236, with `overlaps`). -/
def labelCandidates (label_lines : List LabelLine) (bbox : BBox) : List LabelLine :=
  let x0 := bbox.1
  let x1 := bbox.2.2.1
  label_lines.filter (fun l =>
    (tableLabelMatch (strStrip l.text)).isSome &&
      !(decide (l.x1 < x0) || decide (l.x0 > x1)))

/-- The labels immediately above the bbox (`bottom ≤ y0` and
`y0 - bottom ≤ TABLE_LABEL_SEARCH_WINDOW = 60`). -/
def labelsAbove (label_lines : List LabelLine) (bbox : BBox) : List LabelLine :=
  let y0 := bbox.2.1
  (labelCandidates label_lines bbox).filter (fun l =>
    decide (l.bottom ≤ y0) && decide (y0 - l.bottom ≤ 60))

/-- The labels inside the top `15%` band of the bbox. -/
def labelsInBand (label_lines : List LabelLine) (bbox : BBox) : List LabelLine :=
  let y0 := bbox.2.1
  let y1 := bbox.2.2.2
  let band_height := (y1 - y0) * ((15 : Q) / 100)
  (labelCandidates label_lines bbox).filter (fun l =>
    decide (y0 ≤ l.top) && decide (l.top ≤ y0 + band_height))

/-- Result assembly for a chosen label line: id and title from the match
(stripped), continuation from `"CONTINUED" in line["text"].upper()`. -/
def chosenLabelResult (line : LabelLine) : String × String × LabelLine × Bool :=
  let m := (tableLabelMatch (strStrip line.text)).getD ("", "")
  (strStrip m.1, strStrip m.2, line, strHasSub "CONTINUED" (strUpper line.text))

/-- Embedding of `find_table_label_for_bbox`: prefer the qualifying
label with the greatest `bottom` above the bbox (stable ascending sort,
last element); otherwise the label with the smallest `top` inside the
top band (stable ascending sort, first element); otherwise none. -/
def find_table_label_for_bbox (label_lines : List LabelLine) (bbox : BBox) :
    Option (String × String × LabelLine × Bool) :=
  match (List.insertionSort (keyLe LabelLine.bottom)
      (labelsAbove label_lines bbox)).getLast? with
  | some line => some (chosenLabelResult line)
  | none =>
    match (List.insertionSort (keyLe LabelLine.top)
        (labelsInBand label_lines bbox)).head? with
    | some line => some (chosenLabelResult line)
    | none => none

/-- The per-table binding step of `main` (lines 2795–2804): an
unbindable table gets the id `UNLABELED_P<page>_T<idx>` and a
`TABLE_LABEL_MISSING` warning (the bbox detail of the warning text is
elided). -/
def bindTableLabel (rotated_label_lines : List LabelLine) (bbox : BBox)
    (page_num table_index : Nat) : String × String × Bool × List String :=
  match find_table_label_for_bbox rotated_label_lines bbox with
  | some (tid, title, _, _) => (tid, title, false, [])
  | none =>
    ("UNLABELED_P" ++ toString page_num ++ "_T" ++ toString table_index, "",
      true, ["TABLE_LABEL_MISSING PDF_PAGE=" ++ toString page_num])

theorem sorted_keyLe_getLast {α : Type} (key : α → Q) :
    ∀ (l : List α), List.Sorted (keyLe key) l → ∀ (hne : l ≠ []),
      ∀ x ∈ l, key x ≤ key (l.getLast hne)
  | [], _, hne => absurd rfl hne
  | [a], _, _ => by
    intro x hx
    rcases List.mem_singleton.mp hx with rfl
    exact Q.le_refl _
  | a :: b :: t, h, _ => by
    intro x hx
    have hcons := (List.sorted_cons.mp h)
    rw [List.getLast_cons (by simp)]
    rcases List.mem_cons.mp hx with rfl | hx
    · exact hcons.1 _ (List.getLast_mem (by simp))
    · exact sorted_keyLe_getLast key (b :: t) hcons.2 (by simp) x hx

theorem sorted_keyLe_head {α : Type} (key : α → Q) (a : α) (t : List α)
    (h : List.Sorted (keyLe key) (a :: t)) :
    ∀ x ∈ a :: t, key a ≤ key x := by
  intro x hx
  rcases List.mem_cons.mp hx with rfl | hx
  · exact Q.le_refl _
  · exact (List.sorted_cons.mp h).1 x hx

/-- **C7.** For every table candidate bbox, label binding chooses among
the x-overlapping TABLE-label lines: the qualifying label above the bbox
(`bottom ≤ y0`, `y0 - bottom ≤ 60`) with the greatest bottom; otherwise
a label inside the top 15% band with the smallest top; otherwise the
table is emitted with id `UNLABELED_P<page>_T<idx>` and a warning. -/
theorem find_table_label_choice (label_lines : List LabelLine) (bbox : BBox)
    (page_num table_index : Nat) :
    (∀ tid title line cont,
      find_table_label_for_bbox label_lines bbox = some (tid, title, line, cont) →
        ((tid, title, line, cont) = chosenLabelResult line ∧
          ((line ∈ labelsAbove label_lines bbox ∧
              ∀ m ∈ labelsAbove label_lines bbox, m.bottom ≤ line.bottom) ∨
            (labelsAbove label_lines bbox = [] ∧
              line ∈ labelsInBand label_lines bbox ∧
              ∀ m ∈ labelsInBand label_lines bbox, line.top ≤ m.top)))) ∧
    (find_table_label_for_bbox label_lines bbox = none →
      labelsAbove label_lines bbox = [] ∧ labelsInBand label_lines bbox = [] ∧
        bindTableLabel label_lines bbox page_num table_index =
          ("UNLABELED_P" ++ toString page_num ++ "_T" ++ toString table_index, "",
            true, ["TABLE_LABEL_MISSING PDF_PAGE=" ++ toString page_num])) := by
  constructor
  · intro tid title line cont hfind
    unfold find_table_label_for_bbox at hfind
    cases hg : (List.insertionSort (keyLe LabelLine.bottom)
        (labelsAbove label_lines bbox)).getLast? with
    | some ch =>
      rw [hg] at hfind
      simp only [Option.some.injEq] at hfind
      have hsne : List.insertionSort (keyLe LabelLine.bottom)
          (labelsAbove label_lines bbox) ≠ [] := by
        intro hnil; rw [hnil] at hg; simp at hg
      have hch : ch = (List.insertionSort (keyLe LabelLine.bottom)
          (labelsAbove label_lines bbox)).getLast hsne := by
        have := List.getLast?_eq_getLast _ hsne
        rw [hg] at this
        exact (Option.some.injEq _ _).mp this
      have hmem : ch ∈ labelsAbove label_lines bbox := by
        rw [← List.mem_insertionSort (keyLe LabelLine.bottom)]
        rw [hch]
        exact List.getLast_mem hsne
      have hmax : ∀ m ∈ labelsAbove label_lines bbox, m.bottom ≤ ch.bottom := by
        intro m hm
        have hm2 : m ∈ List.insertionSort (keyLe LabelLine.bottom)
            (labelsAbove label_lines bbox) :=
          (List.mem_insertionSort _).mpr hm
        have := sorted_keyLe_getLast LabelLine.bottom _
          (List.sorted_insertionSort (keyLe LabelLine.bottom)
            (labelsAbove label_lines bbox)) hsne m hm2
        rw [← hch] at this
        exact this
      have hline : line = ch := by
        have := congrArg (fun r => r.2.2.1) hfind
        simpa [chosenLabelResult] using this.symm
      subst hline
      exact ⟨hfind.symm, Or.inl ⟨hmem, hmax⟩⟩
    | none =>
      rw [hg] at hfind
      have habove : labelsAbove label_lines bbox = [] := by
        have hperm := List.perm_insertionSort (keyLe LabelLine.bottom)
          (labelsAbove label_lines bbox)
        rcases hnil : List.insertionSort (keyLe LabelLine.bottom)
            (labelsAbove label_lines bbox) with _ | ⟨x, xs⟩
        · rw [hnil] at hperm
          exact hperm.symm.eq_nil
        · rw [hnil] at hg; simp at hg
      cases hh : (List.insertionSort (keyLe LabelLine.top)
          (labelsInBand label_lines bbox)).head? with
      | some ch =>
        rw [hh] at hfind
        simp only [Option.some.injEq] at hfind
        rcases hnil : List.insertionSort (keyLe LabelLine.top)
            (labelsInBand label_lines bbox) with _ | ⟨x, xs⟩
        · rw [hnil] at hh; simp at hh
        · have hx : ch = x := by
            rw [hnil] at hh; simp at hh; exact hh.symm
          subst hx
          have hmem : ch ∈ labelsInBand label_lines bbox := by
            rw [← List.mem_insertionSort (keyLe LabelLine.top), hnil]
            exact List.mem_cons_self _ _
          have hmin : ∀ m ∈ labelsInBand label_lines bbox, ch.top ≤ m.top := by
            intro m hm
            have hm2 : m ∈ List.insertionSort (keyLe LabelLine.top)
                (labelsInBand label_lines bbox) :=
              (List.mem_insertionSort _).mpr hm
            rw [hnil] at hm2
            have hsorted := List.sorted_insertionSort (keyLe LabelLine.top)
              (labelsInBand label_lines bbox)
            rw [hnil] at hsorted
            exact sorted_keyLe_head LabelLine.top ch xs hsorted m hm2
          have hline : line = ch := by
            have := congrArg (fun r => r.2.2.1) hfind
            simpa [chosenLabelResult] using this.symm
          subst hline
          exact ⟨hfind.symm, Or.inr ⟨habove, hmem, hmin⟩⟩
      | none =>
        rw [hh] at hfind
        exact absurd hfind (by simp)
  · intro hfind
    have hfind0 := hfind
    unfold find_table_label_for_bbox at hfind
    cases hg : (List.insertionSort (keyLe LabelLine.bottom)
        (labelsAbove label_lines bbox)).getLast? with
    | some ch => rw [hg] at hfind; exact absurd hfind (by simp)
    | none =>
      rw [hg] at hfind
      have habove : labelsAbove label_lines bbox = [] := by
        have hperm := List.perm_insertionSort (keyLe LabelLine.bottom)
          (labelsAbove label_lines bbox)
        rcases hnil : List.insertionSort (keyLe LabelLine.bottom)
            (labelsAbove label_lines bbox) with _ | ⟨x, xs⟩
        · rw [hnil] at hperm
          exact hperm.symm.eq_nil
        · rw [hnil] at hg; simp at hg
      cases hh : (List.insertionSort (keyLe LabelLine.top)
          (labelsInBand label_lines bbox)).head? with
      | some ch => rw [hh] at hfind; exact absurd hfind (by simp)
      | none =>
        have hband : labelsInBand label_lines bbox = [] := by
          have hperm := List.perm_insertionSort (keyLe LabelLine.top)
            (labelsInBand label_lines bbox)
          rcases hnil : List.insertionSort (keyLe LabelLine.top)
              (labelsInBand label_lines bbox) with _ | ⟨x, xs⟩
          · rw [hnil] at hperm
            exact hperm.symm.eq_nil
          · rw [hnil] at hh; simp at hh
        refine ⟨habove, hband, ?_⟩
        unfold bindTableLabel
        rw [hfind0]

/-- Witness for `find_table_label_choice`: two qualifying labels above a
bbox; the nearer one (greater bottom) is chosen. -/
theorem find_table_label_choice_witness :
    (⟨"R301.5", "LOADS", ⟨"TABLE R301.5 LOADS", 10, 90, 140, 148⟩, false⟩ :
        String × String × LabelLine × Bool) =
      chosenLabelResult ⟨"TABLE R301.5 LOADS", 10, 90, 140, 148⟩ ∧
    (((⟨"TABLE R301.5 LOADS", 10, 90, 140, 148⟩ : LabelLine) ∈
        labelsAbove
          [⟨"TABLE R301.4 OTHER", 10, 90, 100, 108⟩,
           ⟨"TABLE R301.5 LOADS", 10, 90, 140, 148⟩]
          (0, 150, 100, 400) ∧
      ∀ m ∈ labelsAbove
          [⟨"TABLE R301.4 OTHER", 10, 90, 100, 108⟩,
           ⟨"TABLE R301.5 LOADS", 10, 90, 140, 148⟩]
          (0, 150, 100, 400),
        m.bottom ≤ (⟨"TABLE R301.5 LOADS", 10, 90, 140, 148⟩ : LabelLine).bottom) ∨
     (labelsAbove
        [⟨"TABLE R301.4 OTHER", 10, 90, 100, 108⟩,
         ⟨"TABLE R301.5 LOADS", 10, 90, 140, 148⟩]
        (0, 150, 100, 400) = [] ∧
      (⟨"TABLE R301.5 LOADS", 10, 90, 140, 148⟩ : LabelLine) ∈
        labelsInBand
          [⟨"TABLE R301.4 OTHER", 10, 90, 100, 108⟩,
           ⟨"TABLE R301.5 LOADS", 10, 90, 140, 148⟩]
          (0, 150, 100, 400) ∧
      ∀ m ∈ labelsInBand
          [⟨"TABLE R301.4 OTHER", 10, 90, 100, 108⟩,
           ⟨"TABLE R301.5 LOADS", 10, 90, 140, 148⟩]
          (0, 150, 100, 400),
        (⟨"TABLE R301.5 LOADS", 10, 90, 140, 148⟩ : LabelLine).top ≤ m.top)) := by
  have h := (find_table_label_choice
    [⟨"TABLE R301.4 OTHER", 10, 90, 100, 108⟩,
     ⟨"TABLE R301.5 LOADS", 10, 90, 140, 148⟩]
    (0, 150, 100, 400) 3 1).1
    "R301.5" "LOADS" ⟨"TABLE R301.5 LOADS", 10, 90, 140, 148⟩ false (by decide)
  exact h

/-! ### C2/C10 groundwork: the continuation controller

Python source: `has_continued_marker` (lines 2293–2299), the
pending-table-without-grids branch of `main` (lines 2747–2791), the
carryover test (lines 2751–2755 and 2888–2892) and the document-end
check (lines 3239–3246). -/

/-- The document-level record of a table awaiting continuation. -/
structure PendingTable where
  table_id : String
  title : String
  columns : List String
  rows : List (List String)
  footnotes : List String
  pdf_pages : List Nat
  rotation : Nat
  bboxes : List BBox
deriving DecidableEq

/-- One `write_table` call (id, title, pages, columns, rows, footnotes). -/
structure WrittenTable where
  table_id : String
  title : String
  pdf_pages : List Nat
  columns : List String
  rows : List (List String)
  footnotes : List String
deriving DecidableEq

/-- The `write_table` call flushing a pending table. -/
def writeOfPending (p : PendingTable) : WrittenTable :=
  ⟨p.table_id, p.title, p.pdf_pages, p.columns, p.rows, p.footnotes⟩

/-- Embedding of `has_continued_marker`: some line whose uppercased text
contains `TABLE`, the uppercased id, and `CONTINUED`. -/
def has_continued_marker (label_lines : List LabelLine) (table_id : String) : Bool :=
  label_lines.any (fun l =>
    let text := strUpper l.text
    strHasSub "TABLE" text && strHasSub (strUpper table_id) text &&
      strHasSub "CONTINUED" text)

/-- The inline carryover test of `main`: some line matching the
TABLE-label pattern whose uppercased text contains the (not uppercased)
pending id as a substring. -/
def carryover_label_present (label_lines : List LabelLine) (table_id : String) : Bool :=
  label_lines.any (fun l =>
    (tableLabelMatch (strStrip l.text)).isSome && strHasSub table_id (strUpper l.text))

/-- Embedding of the `if pending_table and not tables:` branch of `main`
(lines 2747–2791): a `CONTINUED` marker or a carryover label is fatal;
otherwise the pending table is written and the slot emptied. -/
def handle_pending_no_tables (pending : PendingTable)
    (label_lines_original : List LabelLine) (page_num : Nat) :
    Except Err (WrittenTable × Option PendingTable) :=
  let continued_marker_present :=
    has_continued_marker label_lines_original pending.table_id
  let carryover :=
    carryover_label_present label_lines_original pending.table_id
  if continued_marker_present then .error ⟨"TABLE_CONTINUATION", some page_num⟩
  else if carryover then .error ⟨"TABLE_CONTINUATION", some page_num⟩
  else .ok (writeOfPending pending, none)

/-- Embedding of the document-end check of `main` (lines 3239–3246): a
pending table after the last page is fatal, tagged with its last page. -/
def finalize_pending (pending : Option PendingTable) : Except Err Unit :=
  match pending with
  | some p => .error ⟨"TABLE_CONTINUATION", p.pdf_pages.getLast?⟩
  | none => .ok ()

/-- **C2.** On a page with a pending table and no table grids: a
`CONTINUED` marker or a carryover TABLE label for the pending id fails
the run with `TABLE_CONTINUATION`; with neither, the pending table is
written out and the pending slot becomes empty.  A pending table
surviving the last page is fatal. -/
theorem pending_no_grids_behavior (pending : PendingTable)
    (label_lines : List LabelLine) (page_num : Nat) :
    ((has_continued_marker label_lines pending.table_id = true ∨
      carryover_label_present label_lines pending.table_id = true) →
        handle_pending_no_tables pending label_lines page_num =
          .error ⟨"TABLE_CONTINUATION", some page_num⟩) ∧
    (has_continued_marker label_lines pending.table_id = false →
      carryover_label_present label_lines pending.table_id = false →
        handle_pending_no_tables pending label_lines page_num =
          .ok (writeOfPending pending, none)) ∧
    (∀ p : PendingTable,
      finalize_pending (some p) = .error ⟨"TABLE_CONTINUATION", p.pdf_pages.getLast?⟩) := by
  refine ⟨?_, ?_, fun p => rfl⟩
  · intro h
    unfold handle_pending_no_tables
    rcases h with h | h
    · simp [h]
    · by_cases hm : has_continued_marker label_lines pending.table_id = true
      · simp [hm]
      · simp only [Bool.not_eq_true] at hm
        simp [hm, h]
  · intro hm hc
    unfold handle_pending_no_tables
    simp [hm, hc]

/-- Witness for `pending_no_grids_behavior`: a pending table on a page
with no labels at all is flushed. -/
theorem pending_no_grids_behavior_witness :
    handle_pending_no_tables
        ⟨"R302.1", "FIRE", ["A", "B"], [["1", "2"]], [], [3], 0, []⟩ [] 4 =
      .ok (writeOfPending ⟨"R302.1", "FIRE", ["A", "B"], [["1", "2"]], [], [3], 0, []⟩,
        none) := by
  exact (pending_no_grids_behavior
    ⟨"R302.1", "FIRE", ["A", "B"], [["1", "2"]], [], [3], 0, []⟩ [] 4).2.1
    (by decide) (by decide)

/-- **C10.** The carryover test is substring containment on uppercased
line text: any line matching the TABLE-label pattern whose uppercased
text contains the pending id makes a grid-less page fatal with
`TABLE_CONTINUATION` — in particular a label for a different variant
sharing the base id (the witness uses pending id `R302.1` against the
label `TABLE R302.1(2) …`). -/
theorem carryover_substring_fails_run (pending : PendingTable)
    (label_lines : List LabelLine) (page_num : Nat)
    (h : ∃ l ∈ label_lines, (tableLabelMatch (strStrip l.text)).isSome = true ∧
          strHasSub pending.table_id (strUpper l.text) = true) :
    handle_pending_no_tables pending label_lines page_num =
      .error ⟨"TABLE_CONTINUATION", some page_num⟩ := by
  have hc : carryover_label_present label_lines pending.table_id = true := by
    unfold carryover_label_present
    rw [List.any_eq_true]
    obtain ⟨l, hl, h1, h2⟩ := h
    exact ⟨l, hl, by rw [h1, h2]; rfl⟩
  exact (pending_no_grids_behavior pending label_lines page_num).1 (Or.inr hc)

/-- Witness for `carryover_substring_fails_run`: the pending id `R302.1`
against a page carrying `TABLE R302.1(2) FIRE-RESISTANCE RATINGS` and no
grids. -/
theorem carryover_substring_fails_run_witness :
    handle_pending_no_tables
        ⟨"R302.1", "FIRE", ["A", "B"], [["1", "2"]], [], [3], 0, []⟩
        [⟨"TABLE R302.1(2) FIRE-RESISTANCE RATINGS", 10, 200, 50, 60⟩] 4 =
      .error ⟨"TABLE_CONTINUATION", some 4⟩ := by
  exact carryover_substring_fails_run
    ⟨"R302.1", "FIRE", ["A", "B"], [["1", "2"]], [], [3], 0, []⟩
    [⟨"TABLE R302.1(2) FIRE-RESISTANCE RATINGS", 10, 200, 50, 60⟩] 4
    ⟨⟨"TABLE R302.1(2) FIRE-RESISTANCE RATINGS", 10, 200, 50, 60⟩,
      List.mem_singleton.mpr rfl, by decide, by decide⟩

/-! ### Transport lemmas for `Q` -/

theorem Q.toRat_add (a b : Q) : (a + b).toRat = a.toRat + b.toRat := by
  show (Q.add a b).toRat = a.toRat + b.toRat
  unfold Q.add Q.toRat
  have ha : ((a.den : ℚ)) ≠ 0 := by
    exact_mod_cast Int.ne_of_gt a.dpos
  have hb : ((b.den : ℚ)) ≠ 0 := by
    exact_mod_cast Int.ne_of_gt b.dpos
  field_simp

theorem Q.toRat_neg (a : Q) : (Q.neg a).toRat = -a.toRat := by
  unfold Q.neg Q.toRat
  simp [neg_div]

theorem Q.toRat_sub (a b : Q) : (a - b).toRat = a.toRat - b.toRat := by
  show (Q.sub a b).toRat = a.toRat - b.toRat
  unfold Q.sub
  rw [show Q.add a (Q.neg b) = a + Q.neg b from rfl, Q.toRat_add, Q.toRat_neg]
  ring

theorem Q.lt_iff_toRat (a b : Q) : a < b ↔ Q.toRat a < Q.toRat b := by
  unfold Q.toRat
  rw [div_lt_div_iff₀ (by exact_mod_cast a.dpos) (by exact_mod_cast b.dpos)]
  constructor
  · intro h; exact_mod_cast h
  · intro h; exact_mod_cast h

theorem Q.toRat_zero : (0 : Q).toRat = 0 := by
  show Q.toRat (Q.ofInt 0) = 0
  unfold Q.toRat Q.ofInt
  norm_num

theorem Q.sub_num_nonneg_of_le {a b : Q} (h : a ≤ b) : 0 ≤ (b - a).num := by
  have hle : a.num * b.den ≤ b.num * a.den := h
  show 0 ≤ b.num * a.den + -a.num * b.den
  have hh : -a.num * b.den = -(a.num * b.den) := by ring
  rw [hh]
  linarith

theorem Q.qabs_of_num_nonneg {a : Q} (h : 0 ≤ a.num) : Q.qabs a = a := by
  unfold Q.qabs
  rw [if_neg (by omega)]

theorem Q.le_of_gap {tol a b : Q} (htol : 0 ≤ tol) (h : tol < b - a) : a ≤ b := by
  rw [Q.lt_iff_toRat, Q.toRat_sub] at h
  rw [Q.le_iff_toRat]
  have h0 : (0 : Q).toRat ≤ tol.toRat := (Q.le_iff_toRat 0 tol).mp htol
  rw [Q.toRat_zero] at h0
  linarith

theorem Q.gap_trans {tol a b c : Q} (hab : a ≤ b) (hbc : tol < c - b) : tol < c - a := by
  rw [Q.lt_iff_toRat, Q.toRat_sub] at hbc ⊢
  rw [Q.le_iff_toRat] at hab
  linarith

/-! ### Line reconstruction helpers

Python source: `median` (lines 91–98), `join_words_with_spacing`
(lines 146–160), `words_to_lines` (lines 163–195),
`median_char_width_for_words` (lines 2019–2030).  These feed the
per-cell text assembly of table extraction. -/

/-- Python `"sep".join(parts)`. -/
def strJoin (sep : String) : List String → String
  | [] => ""
  | [x] => x
  | x :: y :: rest => x ++ sep ++ strJoin sep (y :: rest)

/-- Python `str.lower()` (ASCII). -/
def strLower (s : String) : String :=
  String.mk (s.toList.map Char.toLower)

/-- Embedding of `median`.  The source raises `MEDIAN_EMPTY` on an empty
list; every embedded call site is guarded to be nonempty, so the empty
case here (returning 0) is unreachable. -/
def median (values : List Q) : Q :=
  let values_sorted := List.insertionSort (keyLe (fun q : Q => q)) values
  let mid := values_sorted.length / 2
  if values_sorted.length % 2 = 1 then values_sorted.getD mid 0
  else (values_sorted.getD (mid - 1) 0 + values_sorted.getD mid 0) / 2

/-- Python 3 `round` (banker's rounding, ties to even). -/
def pyRound (q : Q) : Int :=
  let fl := Int.fdiv q.num q.den
  let r2 := 2 * (q.num - fl * q.den)
  if r2 < q.den then fl
  else if q.den < r2 then fl + 1
  else if fl % 2 = 0 then fl else fl + 1

/-- Embedding of `join_words_with_spacing`: concatenate word texts,
inserting `max(1, round(gap / median_char_width))` spaces whenever the
gap to the previous word exceeds the threshold. -/
def join_words_with_spacing_go (gap_threshold median_char_width : Q) :
    Option Q → List Word → String
  | _, [] => ""
  | prev_x1, w :: rest =>
    let sp :=
      match prev_x1 with
      | none => ""
      | some px =>
        let gap := w.x0 - px
        if gap_threshold < gap then
          let v := pyRound (gap / median_char_width)
          let count := if v < 1 then 1 else v
          String.mk (List.replicate count.toNat ' ')
        else ""
    sp ++ w.text ++ join_words_with_spacing_go gap_threshold median_char_width
      (some w.x1) rest

/-- Embedding of `join_words_with_spacing` (words already sorted by the
caller). -/
def join_words_with_spacing (words : List Word)
    (gap_threshold median_char_width : Q) : String :=
  join_words_with_spacing_go gap_threshold median_char_width none words

/-- Python's sort key `(top, x0)` on word tokens (floats compare
numerically). -/
def wordPosLe (a b : Word) : Prop :=
  a.top < b.top ∨ (a.top ≈ b.top ∧ a.x0 ≤ b.x0)

instance : DecidableRel wordPosLe := fun a b => by unfold wordPosLe; infer_instance

/-- A line accumulator of `words_to_lines` before text assembly (`top`
keeps the first word's top; `bottom`, `x0`, `x1` are running extrema). -/
structure LineAcc where
  top : Q
  bottom : Q
  x0 : Q
  x1 : Q
  words : List Word
deriving DecidableEq

/-- The grouping loop of `words_to_lines`: append to the current (last)
line while the word's top is within `y_tolerance` of the line's top;
the accumulator is kept reversed (head = current line). -/
def groupWordLines (y_tolerance : Q) : List Word → List LineAcc → List LineAcc
  | [], acc => acc
  | w :: rest, [] =>
    groupWordLines y_tolerance rest [⟨w.top, w.bottom, w.x0, w.x1, [w]⟩]
  | w :: rest, cur :: done =>
    if Q.qabs (w.top - cur.top) ≤ y_tolerance then
      groupWordLines y_tolerance rest
        ({ cur with
            words := cur.words ++ [w],
            x0 := Q.qmin cur.x0 w.x0,
            x1 := Q.qmax cur.x1 w.x1,
            bottom := Q.qmax cur.bottom w.bottom } :: done)
    else
      groupWordLines y_tolerance rest (⟨w.top, w.bottom, w.x0, w.x1, [w]⟩ :: cur :: done)

/-- A reconstructed line (the dict built by `words_to_lines`). -/
structure BodyLine where
  top : Q
  bottom : Q
  x0 : Q
  x1 : Q
  words : List Word
  text : String
  size_median : Option Q
  bold : Bool
deriving DecidableEq

/-- Embedding of `words_to_lines`: sort by `(top, x0)`, group by
vertical proximity, sort each line's words by `x0`, join with
geometry-derived spacing, record median size and bold flag, and drop
lines with empty text. -/
def words_to_lines (words : List Word)
    (y_tolerance gap_threshold median_char_width : Q) : List BodyLine :=
  let words_sorted := List.insertionSort wordPosLe words
  let groups := (groupWordLines y_tolerance words_sorted []).reverse
  (groups.map (fun g =>
    let sorted_words := List.insertionSort (keyLe Word.x0) g.words
    let text := join_words_with_spacing sorted_words gap_threshold median_char_width
    let sizes := sorted_words.filterMap (fun w => w.size)
    { top := g.top, bottom := g.bottom, x0 := g.x0, x1 := g.x1,
      words := sorted_words, text := text,
      size_median := if sizes.isEmpty then none else some (median sizes),
      bold := sorted_words.any (fun w => strHasSub "bold" (strLower w.fontname)) :
      BodyLine })).filter (fun l => l.text ≠ "")

/-- Embedding of `median_char_width_for_words`: median of per-character
widths `(x1 - x0) / max(len(text), 1)` over words with nonempty text and
positive width; `1.0` when no widths survive. -/
def median_char_width_for_words (words : List Word) : Q :=
  let widths := words.filterMap (fun w =>
    if w.text = "" then none
    else
      let d := if w.text.length < 1 then 1 else w.text.length
      let width := (w.x1 - w.x0) / Q.ofInt d
      if 0 < width then some width else none)
  if widths.isEmpty then 1 else median widths

/-! ### C6 groundwork: cell extraction from a ruled grid

Python source: `unique_sorted_positions` (lines 2008–2016) and
`extract_table_cells_from_grid` (lines 2033–2103).  `RULING_EPS = 1.0`,
`TABLE_EMPTY_CELL_RATIO_MAX = 0.8`, `WORD_GAP_MULTIPLIER = 0.5`,
`LINE_Y_TOLERANCE = 3.0`. -/

/-- The merge loop of `unique_sorted_positions`: keep a value when it is
more than `tolerance` away from the last kept value. -/
def uspGo (tolerance : Q) : Q → List Q → List Q
  | _, [] => []
  | last, v :: vs =>
    if tolerance < Q.qabs (v - last) then v :: uspGo tolerance v vs
    else uspGo tolerance last vs

/-- Embedding of `unique_sorted_positions`: sort ascending, then keep
the first value and every value more than `tolerance` from the last
kept one. -/
def unique_sorted_positions (values : List Q) (tolerance : Q) : List Q :=
  match List.insertionSort (keyLe (fun q : Q => q)) values with
  | [] => []
  | v :: vs => v :: uspGo tolerance v vs

/-- A table candidate as fed to cell extraction: the rotated-frame bbox
together with the `x0` coordinates of its vertical rulings and the `top`
coordinates of its horizontal rulings (the only ruling fields the
function reads). -/
structure TableCandidate where
  bbox_rotated : BBox
  v_line_x0s : List Q
  h_line_tops : List Q
deriving DecidableEq

/-- The extraction result dict of `extract_table_cells_from_grid`. -/
structure Extraction where
  ok : Bool
  rows : List (List String)
  columns : List String
  empty_ratio : Q
  row_count : Nat
  col_count : Nat
  reason : String
deriving DecidableEq

/-- Unique ruling positions clipped to `[lo, hi]` and re-sorted (the
`unique_sorted_positions` call, the clip filter, and the `.sort()` of
the source). -/
def clip_sorted_positions (raw : List Q) (tolerance lo hi : Q) : List Q :=
  List.insertionSort (keyLe (fun q : Q => q))
    ((unique_sorted_positions raw tolerance).filter
      (fun p => decide (lo ≤ p) && decide (p ≤ hi)))

/-- The vertical grid positions used by cell extraction
(`RULING_EPS = 1` both as merge tolerance and clip slack). -/
def grid_v_positions (c : TableCandidate) : List Q :=
  clip_sorted_positions c.v_line_x0s 1 (c.bbox_rotated.1 - 1) (c.bbox_rotated.2.2.1 + 1)

/-- The horizontal grid positions used by cell extraction. -/
def grid_h_positions (c : TableCandidate) : List Q :=
  clip_sorted_positions c.h_line_tops 1 (c.bbox_rotated.2.1 - 1) (c.bbox_rotated.2.2.2 + 1)

/-- The words whose center falls inside the candidate bbox. -/
def words_in_bbox (words : List Word) (bbox : BBox) : List Word :=
  words.filter (fun w =>
    let wx := (w.x0 + w.x1) / 2
    let wy := (w.top + w.bottom) / 2
    decide (bbox.1 ≤ wx) && decide (wx ≤ bbox.2.2.1) &&
      decide (bbox.2.1 ≤ wy) && decide (wy ≤ bbox.2.2.2))

/-- The words of one cell: center inside the cell rectangle. -/
def cellWordsAt (wib : List Word) (v h : List Q) (r c : Nat) : List Word :=
  let cell_top := h.getD r 0
  let cell_bottom := h.getD (r + 1) 0
  let cell_x0 := v.getD c 0
  let cell_x1 := v.getD (c + 1) 0
  wib.filter (fun w =>
    let wx := (w.x0 + w.x1) / 2
    let wy := (w.top + w.bottom) / 2
    decide (cell_x0 ≤ wx) && decide (wx ≤ cell_x1) &&
      decide (cell_top ≤ wy) && decide (wy ≤ cell_bottom))

/-- One cell's text: line-reconstructed cell words joined by newlines,
empty for an empty cell. -/
def cellText (cell_words : List Word) : String :=
  if cell_words.isEmpty then ""
  else
    let median_width := median_char_width_for_words cell_words
    let gap_threshold := median_width * ((1 : Q) / 2)
    let lines := words_to_lines cell_words 3 gap_threshold median_width
    strJoin "\n" (lines.map (fun l => l.text))

/-- All grid rows (header row included). -/
def grid_rows (words : List Word) (cand : TableCandidate) (v h : List Q) :
    List (List String) :=
  let wib := words_in_bbox words cand.bbox_rotated
  (List.range (h.length - 1)).map (fun r =>
    (List.range (v.length - 1)).map (fun c => cellText (cellWordsAt wib v h r c)))

/-- Embedding of `extract_table_cells_from_grid` over given grid
positions. -/
def extract_cells_core (words : List Word) (cand : TableCandidate)
    (v h : List Q) : Extraction :=
  if v.length < 2 ∨ h.length < 2 then
    ⟨false, [], [], 1, 0, 0, "grid_insufficient"⟩
  else
    let allRows := grid_rows words cand v h
    let total_cells : Nat := allRows.foldl (fun acc r => acc + r.length) 0
    let empty_cells : Nat :=
      allRows.foldl (fun acc r => acc + (r.filter (fun cell => strStrip cell = "")).length) 0
    let empty_ratio :=
      if total_cells = 0 then 1
      else Q.ofInt (empty_cells : Int) / Q.ofInt (total_cells : Int)
    let col_count := match allRows with | [] => 0 | r :: _ => r.length
    let row_count := allRows.length
    let okv := decide (2 ≤ row_count) && decide (2 ≤ col_count) &&
      decide (empty_ratio ≤ (4 : Q) / 5)
    ⟨okv, allRows.drop 1,
      (match allRows with | [] => [] | r :: _ => r),
      empty_ratio, row_count, col_count,
      if okv then "ok" else "degenerate"⟩

/-- Embedding of `extract_table_cells_from_grid`. -/
def extract_table_cells_from_grid (words : List Word) (cand : TableCandidate) :
    Extraction :=
  extract_cells_core words cand (grid_v_positions cand) (grid_h_positions cand)

/-- Modelled from the spec: the same extraction but with the claimed
`0.5`-pt merge tolerance and clipping exactly to the candidate bbox
(no slack), for comparison against the code's `1.0`-pt behavior. -/
def extract_table_cells_spec (words : List Word) (cand : TableCandidate) :
    Extraction :=
  extract_cells_core words cand
    (clip_sorted_positions c_v ((1 : Q) / 2) cand.bbox_rotated.1 cand.bbox_rotated.2.2.1)
    (clip_sorted_positions c_h ((1 : Q) / 2) cand.bbox_rotated.2.1 cand.bbox_rotated.2.2.2)
where
  c_v := cand.v_line_x0s
  c_h := cand.h_line_tops

theorem uspGo_pairwise (tolerance : Q) :
    ∀ (l : List Q) (last : Q), List.Sorted (keyLe (fun q : Q => q)) l →
      (∀ x ∈ l, last ≤ x) →
      List.Pairwise (fun a b => tolerance < b - a) (uspGo tolerance last l) ∧
        ∀ y ∈ uspGo tolerance last l, tolerance < y - last := by
  intro l
  induction l with
  | nil => intro last _ _; exact ⟨List.Pairwise.nil, by simp [uspGo]⟩
  | cons v vs ih =>
    intro last hsorted hall
    have hlv : last ≤ v := hall v (List.mem_cons_self _ _)
    have hcons := List.sorted_cons.mp hsorted
    by_cases hc : tolerance < Q.qabs (v - last)
    · have hgap : tolerance < v - last := by
        rwa [Q.qabs_of_num_nonneg (Q.sub_num_nonneg_of_le hlv)] at hc
      have hih := ih v hcons.2 hcons.1
      simp only [uspGo, if_pos hc]
      constructor
      · exact List.Pairwise.cons (fun y hy => hih.2 y hy) hih.1
      · intro y hy
        rcases List.mem_cons.mp hy with rfl | hy
        · exact hgap
        · exact Q.gap_trans hlv (hih.2 y hy)
    · simp only [uspGo, if_neg hc]
      exact ih last hcons.2 (fun x hx => hall x (List.mem_cons_of_mem _ hx))

theorem unique_sorted_positions_pairwise (values : List Q) (tolerance : Q)
    (htol : 0 ≤ tolerance) :
    List.Pairwise (fun a b => tolerance < b - a)
        (unique_sorted_positions values tolerance) ∧
      List.Sorted (keyLe (fun q : Q => q))
        (unique_sorted_positions values tolerance) := by
  unfold unique_sorted_positions
  cases hs : List.insertionSort (keyLe (fun q : Q => q)) values with
  | nil => simp
  | cons v vs =>
    have hsorted := List.sorted_insertionSort (keyLe (fun q : Q => q)) values
    rw [hs] at hsorted
    have hcons := List.sorted_cons.mp hsorted
    have h := uspGo_pairwise tolerance vs v hcons.2 hcons.1
    constructor
    · exact List.Pairwise.cons (fun y hy => h.2 y hy) h.1
    · refine List.Pairwise.cons (fun y hy => Q.le_of_gap htol (h.2 y hy)) ?_
      exact h.1.imp (fun hab => Q.le_of_gap htol hab)

theorem clip_sorted_positions_spec (raw : List Q) (lo hi : Q) :
    List.Pairwise (fun a b => (1 : Q) < b - a)
        (clip_sorted_positions raw 1 lo hi) ∧
      ∀ p ∈ clip_sorted_positions raw 1 lo hi, lo ≤ p ∧ p ≤ hi := by
  have h01 : (0 : Q) ≤ 1 := by decide
  obtain ⟨hpw, hsorted⟩ := unique_sorted_positions_pairwise raw 1 h01
  have hfs : List.Sorted (keyLe (fun q : Q => q))
      ((unique_sorted_positions raw 1).filter
        (fun p => decide (lo ≤ p) && decide (p ≤ hi))) :=
    hsorted.filter _
  unfold clip_sorted_positions
  rw [List.Sorted.insertionSort_eq hfs]
  constructor
  · exact hpw.sublist (List.filter_sublist _)
  · intro p hp
    have := List.of_mem_filter hp
    simp only [Bool.and_eq_true, decide_eq_true_eq] at this
    exact this

/-- **C6 counterexample.** The claim says the grid merges ruling
positions within `0.5` pt and clips them to the candidate bbox; the code
merges within `1.0` pt (`RULING_EPS`) and clips with a `1.0`-pt slack.
For vertical rulings at 0, 1 and 50 the claimed behavior keeps two
columns and accepts the candidate, while the code merges 0 and 1 into
one position, leaving a single column, and rejects the candidate. -/
theorem extract_cells_tolerance_claim_fails :
    (extract_table_cells_from_grid
        [⟨20, 30, 2, 8, "a", none, "F"⟩, ⟨20, 30, 12, 18, "b", none, "F"⟩]
        ⟨(0, 0, 50, 30), [0, 1, 50], [0, 10, 20, 30]⟩).ok = false ∧
      (extract_table_cells_spec
        [⟨20, 30, 2, 8, "a", none, "F"⟩, ⟨20, 30, 12, 18, "b", none, "F"⟩]
        ⟨(0, 0, 50, 30), [0, 1, 50], [0, 10, 20, 30]⟩).ok = true := by
  constructor
  · decide
  · decide

/-- **C6 (amended).** Cell extraction builds the grid from unique
horizontal and vertical ruling positions merged within `1.0` pt
(consecutive kept positions are strictly more than 1 pt apart) and
clipped to the candidate bbox extended by `1.0` pt on each side; each
word is assigned to the cell containing its center; the first grid row
is the column header and subsequent rows the body (every row carrying
exactly `col_count` cells); and the candidate is rejected exactly when
row count < 2, column count < 2, or the empty-cell ratio exceeds 0.80. -/
theorem extract_cells_characterization (words : List Word) (cand : TableCandidate) :
    ((extract_table_cells_from_grid words cand).ok = true ↔
      (2 ≤ (extract_table_cells_from_grid words cand).row_count ∧
        2 ≤ (extract_table_cells_from_grid words cand).col_count ∧
        (extract_table_cells_from_grid words cand).empty_ratio ≤ (4 : Q) / 5)) ∧
    (extract_table_cells_from_grid words cand).columns.length =
      (extract_table_cells_from_grid words cand).col_count ∧
    (∀ r ∈ (extract_table_cells_from_grid words cand).rows,
      r.length = (extract_table_cells_from_grid words cand).col_count) ∧
    List.Pairwise (fun a b => (1 : Q) < b - a) (grid_v_positions cand) ∧
    List.Pairwise (fun a b => (1 : Q) < b - a) (grid_h_positions cand) ∧
    (∀ p ∈ grid_v_positions cand,
      cand.bbox_rotated.1 - 1 ≤ p ∧ p ≤ cand.bbox_rotated.2.2.1 + 1) ∧
    (∀ p ∈ grid_h_positions cand,
      cand.bbox_rotated.2.1 - 1 ≤ p ∧ p ≤ cand.bbox_rotated.2.2.2 + 1) := by
  obtain ⟨hvp, hvb⟩ := clip_sorted_positions_spec cand.v_line_x0s
    (cand.bbox_rotated.1 - 1) (cand.bbox_rotated.2.2.1 + 1)
  obtain ⟨hhp, hhb⟩ := clip_sorted_positions_spec cand.h_line_tops
    (cand.bbox_rotated.2.1 - 1) (cand.bbox_rotated.2.2.2 + 1)
  refine ⟨?_, ?_, ?_, hvp, hhp, hvb, hhb⟩
  · -- rejection iff
    unfold extract_table_cells_from_grid extract_cells_core
    by_cases hg : (grid_v_positions cand).length < 2 ∨ (grid_h_positions cand).length < 2
    · rw [if_pos hg]
      simp
    · rw [if_neg hg]
      simp only [Bool.and_eq_true, decide_eq_true_eq]
      tauto
  · -- header length equals col_count
    unfold extract_table_cells_from_grid extract_cells_core
    by_cases hg : (grid_v_positions cand).length < 2 ∨ (grid_h_positions cand).length < 2
    · rw [if_pos hg]
      rfl
    · rw [if_neg hg]
      cases hr : grid_rows words cand (grid_v_positions cand) (grid_h_positions cand) with
      | nil => simp
      | cons r rest => simp
  · -- each body row has col_count cells
    unfold extract_table_cells_from_grid extract_cells_core
    by_cases hg : (grid_v_positions cand).length < 2 ∨ (grid_h_positions cand).length < 2
    · rw [if_pos hg]
      intro r hr
      simp at hr
    · rw [if_neg hg]
      intro r hr
      simp only at hr
      have hrlen : ∀ s ∈ grid_rows words cand (grid_v_positions cand)
          (grid_h_positions cand), s.length = (grid_v_positions cand).length - 1 := by
        intro s hs
        unfold grid_rows at hs
        obtain ⟨i, _, rfl⟩ := List.mem_map.mp hs
        simp
      have hrmem : r ∈ grid_rows words cand (grid_v_positions cand)
          (grid_h_positions cand) := by
        have hdrop := List.drop_sublist 1 (grid_rows words cand (grid_v_positions cand)
          (grid_h_positions cand))
        exact hdrop.mem hr
      rw [hrlen r hrmem]
      cases hrows : grid_rows words cand (grid_v_positions cand)
          (grid_h_positions cand) with
      | nil =>
        rw [hrows] at hrmem
        simp at hrmem
      | cons s rest =>
        simp only
        rw [hrlen s (by rw [hrows]; exact List.mem_cons_self _ _)]

/-- Witness for `extract_cells_characterization`: a 2×2 grid with both
header cells and one body cell filled is accepted. -/
theorem extract_cells_characterization_witness :
    (extract_table_cells_from_grid
        [⟨1, 9, 1, 9, "h1", none, "F"⟩, ⟨11, 19, 1, 9, "h2", none, "F"⟩,
         ⟨1, 9, 11, 19, "v1", none, "F"⟩]
        ⟨(0, 0, 20, 20), [0, 10, 20], [0, 10, 20]⟩).ok = true := by
  exact (extract_cells_characterization
    [⟨1, 9, 1, 9, "h1", none, "F"⟩, ⟨11, 19, 1, 9, "h2", none, "F"⟩,
     ⟨1, 9, 11, 19, "v1", none, "F"⟩]
    ⟨(0, 0, 20, 20), [0, 10, 20], [0, 10, 20]⟩).1.mpr (by decide)

/-! ### C8 groundwork: table output serialization and continuation merge

Python source: `write_table` (lines 2321–2368; the `.txt`, `.csv` and
`.json` outputs all serialize the same `columns`/`rows` lists, the CSV
through `csv.writer`'s minimal quoting) and the pending-table merge
branch of `main` (lines 2884–2995). -/

/-- Whether `csv.writer` (default dialect, minimal quoting) must quote a
field: it contains the delimiter, the quote character, or a
line-terminator character. -/
def csvNeedsQuote (s : String) : Bool :=
  s.toList.any (fun c => c == ',' || c == '"' || c == '\n' || c == '\r')

/-- Quote-doubling of csv escaping. -/
def csvDouble : List Char → List Char
  | [] => []
  | c :: rest =>
    if c = '"' then '"' :: '"' :: csvDouble rest else c :: csvDouble rest

/-- One csv field as written by `csv.writer`. -/
def csvField (s : String) : String :=
  if csvNeedsQuote s then String.mk ('"' :: (csvDouble s.toList ++ ['"'])) else s

/-- Inverse of quote-doubling. -/
def csvUndouble : List Char → List Char
  | [] => []
  | [c] => [c]
  | c :: d :: rest =>
    if c = '"' ∧ d = '"' then '"' :: csvUndouble rest
    else c :: csvUndouble (d :: rest)

/-- Un-escaping of one csv field. -/
def csvUnfield (s : String) : String :=
  let l := s.toList
  if 2 ≤ l.length ∧ l.head? = some '"' ∧ l.getLast? = some '"' then
    String.mk (csvUndouble (l.drop 1).dropLast)
  else s

theorem strMk_toList (s : String) : String.mk s.toList = s := by
  cases s; rfl

theorem csvUndouble_cons_of_ne {c : Char} (hc : c ≠ '"') (l : List Char) :
    csvUndouble (c :: l) = c :: csvUndouble l := by
  cases l with
  | nil => rfl
  | cons d ds =>
    show (if c = '"' ∧ d = '"' then '"' :: csvUndouble ds
      else c :: csvUndouble (d :: ds)) = c :: csvUndouble (d :: ds)
    exact if_neg (by rintro ⟨h, _⟩; exact hc h)

theorem csvUndouble_csvDouble (l : List Char) : csvUndouble (csvDouble l) = l := by
  induction l with
  | nil => rfl
  | cons c rest ih =>
    by_cases hc : c = '"'
    · subst hc
      show '"' :: csvUndouble (csvDouble rest) = '"' :: rest
      rw [ih]
    · have hd : csvDouble (c :: rest) = c :: csvDouble rest := by
        show (if c = '"' then '"' :: '"' :: csvDouble rest else c :: csvDouble rest) =
          c :: csvDouble rest
        exact if_neg hc
      rw [hd, csvUndouble_cons_of_ne hc, ih]

theorem csvUnfield_csvField (s : String) : csvUnfield (csvField s) = s := by
  by_cases hq : csvNeedsQuote s = true
  · rw [csvField, if_pos hq]
    unfold csvUnfield
    have htl : (String.mk ('"' :: (csvDouble s.toList ++ ['"']))).toList =
        '"' :: (csvDouble s.toList ++ ['"']) := rfl
    rw [htl]
    rw [if_pos ?hcond]
    case hcond =>
      refine ⟨by simp, by simp, ?_⟩
      rw [show ('"' :: (csvDouble s.toList ++ ['"'])) =
          ('"' :: csvDouble s.toList) ++ ['"'] by simp]
      exact List.getLast?_concat _
    rw [show ('"' :: (csvDouble s.toList ++ ['"'])).drop 1 =
        csvDouble s.toList ++ ['"'] from rfl]
    rw [List.dropLast_concat, csvUndouble_csvDouble, strMk_toList]
  · rw [csvField, if_neg hq]
    unfold csvUnfield
    rw [if_neg ?hcond2]
    case hcond2 =>
      rintro ⟨_, hh, _⟩
      apply hq
      unfold csvNeedsQuote
      rw [List.any_eq_true]
      cases hl : s.toList with
      | nil => rw [hl] at hh; simp at hh
      | cons c cs =>
        rw [hl] at hh
        simp only [List.head?_cons, Option.some.injEq] at hh
        subst hh
        exact ⟨'"', List.mem_cons_self _ _, by decide⟩

/-- The cell payloads of the three files `write_table` produces for one
table. -/
structure TableSerialization where
  txt_column_lines : List String
  txt_row_lines : List String
  csv_header : List String
  csv_rows : List (List String)
  json_columns : List String
  json_rows : List (List String)
deriving DecidableEq

/-- Embedding of the cell serialization of `write_table`: the `.txt`
lists columns as `- <col>` lines and rows joined with ` | `; the `.csv`
gets the header row and body rows through csv escaping; the `.json`
carries the lists verbatim. -/
def write_table_serialization (columns : List String) (rows : List (List String)) :
    TableSerialization :=
  { txt_column_lines := columns.map (fun col => "- " ++ col),
    txt_row_lines := rows.map (fun row => "- " ++ strJoin " | " row),
    csv_header := columns.map csvField,
    csv_rows := rows.map (fun row => row.map csvField),
    json_columns := columns,
    json_rows := rows }

/-- A per-page table entry as assembled by `main` before the
continuation step (lines 2858–2882; only the fields the merge reads). -/
structure TableEntry where
  table_id : String
  title : String
  columns : List String
  rows : List (List String)
  footnotes : List String
  touches_bottom : Bool
  bbox : BBox
  rotation : Nat
deriving DecidableEq

/-- Embedding of the pending-table merge branch of `main`
(lines 2884–2995): find continuation matches (same id, and a CONTINUED
marker or equal headers plus a carryover label), reject a marker without
match, multiple matches, or a rotation mismatch; merge the unique match
(appending rows, footnotes, the page and the bbox), writing the merged
table unless the match touches the bottom; with no match, a reappearing
pending id is fatal, otherwise the pending table is flushed.  Returns
the `write_table` calls, the new pending slot, and the entries left for
the per-entry loop. -/
def handle_pending_with_tables (pending : PendingTable)
    (table_entries : List TableEntry) (label_lines_original : List LabelLine)
    (page_num : Nat) :
    Except Err (List WrittenTable × Option PendingTable × List TableEntry) :=
  let continued_marker := has_continued_marker label_lines_original pending.table_id
  let carryover := carryover_label_present label_lines_original pending.table_id
  let continuation_matches := table_entries.filter (fun e =>
    e.table_id == pending.table_id &&
      (continued_marker || (decide (e.columns = pending.columns) && carryover)))
  if continued_marker = true ∧ continuation_matches = [] then
    .error ⟨"TABLE_CONTINUATION", some page_num⟩
  else if 1 < continuation_matches.length then
    .error ⟨"TABLE_CONTINUATION", some page_num⟩
  else
    match continuation_matches with
    | entry :: _ =>
      if pending.rotation ≠ entry.rotation then
        .error ⟨"TABLE_CONTINUATION", some page_num⟩
      else
        let merged : PendingTable :=
          { pending with
              rows := pending.rows ++ entry.rows,
              footnotes := pending.footnotes ++ entry.footnotes,
              pdf_pages := pending.pdf_pages ++ [page_num],
              bboxes := pending.bboxes ++ [entry.bbox] }
        let remaining := table_entries.erase entry
        if entry.touches_bottom = false then
          .ok ([writeOfPending merged], none, remaining)
        else
          .ok ([], some merged, remaining)
    | [] =>
      if table_entries.any (fun e => e.table_id == pending.table_id) then
        .error ⟨"TABLE_CONTINUATION", some page_num⟩
      else
        .ok ([writeOfPending pending], none, table_entries)

/-- **C8 counterexample.** A continuation proven only by a `CONTINUED`
marker merges without checking header equality: a pending table with 2
column headers absorbs a continuation grid with 3-cell rows, and the
emitted table has a body row whose cell count differs from its header
count — the claimed equality fails for this emitted table. -/
theorem merged_table_breaks_header_count :
    handle_pending_with_tables
        ⟨"R302.1", "F", ["A", "B"], [["a", "b"]], [], [3], 0, []⟩
        [⟨"R302.1", "", ["X", "Y", "Z"], [["1", "2", "3"]], [], false, (0, 0, 10, 10), 0⟩]
        [⟨"TABLE R302.1 (CONTINUED)", 0, 100, 5, 15⟩] 4 =
      .ok ([⟨"R302.1", "F", [3, 4], ["A", "B"], [["a", "b"], ["1", "2", "3"]], []⟩],
        none, []) ∧
    ¬ (∀ r ∈ [["a", "b"], ["1", "2", "3"]],
        r.length = (["A", "B"] : List String).length) := by
  constructor
  · decide
  · decide

/-- **C8 (amended).** For every emitted table, the `.txt`, `.csv` and
`.json` outputs serialize the same `columns` and `rows` lists — the json
carries them verbatim, the csv cells recover them after csv
un-escaping, and the txt renders exactly those rows joined with
` | ` — and for any table whose cells come from a single grid
extraction the column-header count equals every body row's cell count;
only a continuation merged under a `CONTINUED` marker alone can append
body rows whose cell count differs from the stored header count. -/
theorem table_outputs_same_lists (columns : List String)
    (rows : List (List String)) (words : List Word) (cand : TableCandidate) :
    (write_table_serialization columns rows).json_columns = columns ∧
    (write_table_serialization columns rows).json_rows = rows ∧
    (write_table_serialization columns rows).csv_header.map csvUnfield = columns ∧
    (write_table_serialization columns rows).csv_rows.map
        (fun r => r.map csvUnfield) = rows ∧
    (write_table_serialization columns rows).txt_row_lines =
      rows.map (fun row => "- " ++ strJoin " | " row) ∧
    (∀ r ∈ (extract_table_cells_from_grid words cand).rows,
      r.length = (extract_table_cells_from_grid words cand).columns.length) := by
  refine ⟨rfl, rfl, ?_, ?_, rfl, ?_⟩
  · show (columns.map csvField).map csvUnfield = columns
    rw [List.map_map]
    have : (csvUnfield ∘ csvField) = id := by
      funext s
      exact csvUnfield_csvField s
    rw [this, List.map_id]
  · show (rows.map (fun row => row.map csvField)).map (fun r => r.map csvUnfield) = rows
    rw [List.map_map]
    have : ((fun r : List String => r.map csvUnfield) ∘
        (fun row : List String => row.map csvField)) = id := by
      funext r
      show (r.map csvField).map csvUnfield = r
      rw [List.map_map]
      have h2 : (csvUnfield ∘ csvField) = id := by
        funext s
        exact csvUnfield_csvField s
      rw [h2, List.map_id]
    rw [this, List.map_id]
  · intro r hr
    have hc := extract_cells_characterization words cand
    rw [hc.2.2.1 r hr, hc.2.1]

/-- Witness for `table_outputs_same_lists`: csv escaping round-trips
cells containing delimiters, quotes and newlines. -/
theorem table_outputs_same_lists_witness :
    (write_table_serialization ["a,b", "c\"d"] [["x\ny", "plain"]]).csv_rows.map
        (fun r => r.map csvUnfield) = [["x\ny", "plain"]] := by
  exact (table_outputs_same_lists ["a,b", "c\"d"] [["x\ny", "plain"]] []
    ⟨(0, 0, 1, 1), [], []⟩).2.2.2.1

/-! ### C1/C5 groundwork: section recognition during document traversal

Python source: `section_id_depth` (lines 1343–1344),
`header_position_tolerance` / `is_header_position_any` /
`is_header_style` / `passes_header_position_style` (lines 1036–1073),
and the section loop of `main` (lines 3096–3187).  Note that the
traversal accepts headings through `parse_true_section_heading` alone;
`detect_section_start` — the function that applies
`passes_header_position_style` — is never called by `main`. -/

/-- Embedding of `section_id_depth`: the number of maximal digit runs in
the id (`len(re.findall(r"\d+", section_id))`). -/
def countDigitRuns : Bool → List Char → Nat
  | _, [] => 0
  | inRun, c :: rest =>
    if c.isDigit then
      if inRun then countDigitRuns true rest else 1 + countDigitRuns true rest
    else countDigitRuns false rest

/-- Embedding of `section_id_depth`. -/
def section_id_depth (section_id : String) : Nat :=
  countDigitRuns false section_id.toList

/-- The column-bounds fields read by the header position test. -/
structure ColumnBounds where
  left_x0 : Q
  right_x0_p5 : Option Q
  right_x0_min : Option Q
  page_median_char_width : Option Q
deriving DecidableEq

/-- An ordered body line as consumed by the traversal (text, geometry,
style, column class and role). -/
structure OrderedLine where
  text : String
  top : Q
  x0 : Q
  size_median : Option Q
  bold : Bool
  column : Option String
  role : Option String
deriving DecidableEq

/-- Embedding of `header_position_tolerance`:
`max(COLUMN_MARGIN_TOLERANCE = 3, 3 · median char width)`. -/
def header_position_tolerance (cb : ColumnBounds) : Q :=
  match cb.page_median_char_width with
  | some w => Q.qmax 3 (w * 3)
  | none => 3

/-- Embedding of `is_header_position_any` (the Python `or` falls through
a `right_x0_p5` of 0.0, which is falsy). -/
def is_header_position_any (line : OrderedLine) (cb : ColumnBounds) : Bool :=
  let tolerance := header_position_tolerance cb
  if line.column == some "right" then
    let right_x0 :=
      match cb.right_x0_p5 with
      | some v => if v ≈ (0 : Q) then cb.right_x0_min else some v
      | none => cb.right_x0_min
    match right_x0 with
    | none => false
    | some r => decide (Q.qabs (line.x0 - r) ≤ tolerance)
  else decide (Q.qabs (line.x0 - cb.left_x0) ≤ tolerance)

/-- Embedding of `is_header_style`: bold, or median size at least the
body median plus `HEADER_SIZE_DELTA = 1`. -/
def is_header_style (line : OrderedLine) (body_median_size : Q) : Bool :=
  match line.size_median with
  | none => false
  | some sz => line.bold || decide (body_median_size + 1 ≤ sz)

/-- Embedding of `passes_header_position_style`. -/
def passes_header_position_style (line : OrderedLine) (cb : ColumnBounds)
    (body_median_size : Q) : Bool :=
  is_header_position_any line cb && is_header_style line body_median_size

/-- An open-section stack entry. -/
structure SectionEntry where
  id : String
  depth : Nat
  lines : List String
  start_page : Nat
  end_page : Nat
  chapter : String
deriving DecidableEq

/-- The document-level traversal state: the open-section stack (head =
top, mirroring Python's end-of-list top), the accepted ids
(`section_occurrences` keys) and the flushed (`write_section`) entries
in flush order. -/
structure TraversalState where
  stack : List SectionEntry
  occurrences : List String
  written : List SectionEntry
deriving DecidableEq

/-- The per-line page context of the traversal. -/
structure LineCtx where
  is_toc_page : Bool
  label_entries : List (Q × String)
  footnote_tops : List Q
  page_num : Nat
  chapter : String
deriving DecidableEq

/-- The `is_label_line` test of the loop (lines 3115–3119). -/
def is_label_line (ctx : LineCtx) (line : OrderedLine) : Bool :=
  ctx.label_entries.any (fun lt =>
    decide (Q.qabs (line.top - lt.1) ≤ 3) && line.text == lt.2)

/-- The `line["top"] in table_footnote_tops` membership test (float
equality). -/
def top_in_footnotes (ctx : LineCtx) (line : OrderedLine) : Bool :=
  ctx.footnote_tops.any (fun t => decide (line.top ≈ t))

/-- The `while` pop loop (lines 3140–3155): flush entries with depth
`≥ new_depth` and a different id; returns the flushed entries in pop
order and the remaining stack. -/
def popWhile (new_depth : Nat) (candidate_id : String) :
    List SectionEntry → List SectionEntry × List SectionEntry
  | [] => ([], [])
  | e :: rest =>
    if new_depth ≤ e.depth ∧ candidate_id ≠ e.id then
      let pr := popWhile new_depth candidate_id rest
      (e :: pr.1, pr.2)
    else ([], e :: rest)

/-- The acceptance tail of the loop once `candidate_id` matched
(lines 3120–3179).  On the error paths the source has already written
the popped entries before raising; since every error aborts the run,
the embedding simply returns the error. -/
def accept_candidate (ctx : LineCtx) (s : TraversalState) (line : OrderedLine)
    (cid : String) : Except Err TraversalState :=
  if line.role == some "spanning_reference" || is_label_line ctx line ||
      top_in_footnotes ctx line then
    .error ⟨"SECTION_HEADER_SKIPPED", some ctx.page_num⟩
  else if (match s.stack.head? with | some e => cid == e.id | none => false) then
    .error ⟨"SECTION_APPEND_VIOLATION", some ctx.page_num⟩
  else
    let new_depth := section_id_depth cid
    let pr := popWhile new_depth cid s.stack
    if cid ∈ s.occurrences then .error ⟨"SECTION_DUPLICATE", some ctx.page_num⟩
    else
      .ok { stack := ⟨cid, new_depth, [line.text], ctx.page_num, ctx.page_num,
              ctx.chapter⟩ :: pr.2,
            occurrences := s.occurrences ++ [cid],
            written := s.written ++ pr.1 }

/-- Embedding of the body of the section loop of `main`
(lines 3096–3187) for one ordered line: TOC pages are skipped; a SECTION
marker line pops and writes the top entry; a line matching
`parse_true_section_heading` is accepted as a heading (no header
position or style test on this path); other lines are appended to the
top entry. -/
def process_section_line (ctx : LineCtx) (s : TraversalState)
    (line : OrderedLine) : Except Err TraversalState :=
  if ctx.is_toc_page then .ok s
  else
    let candidate_id := parse_true_section_heading line.text
    let marker_id := parse_section_marker_line line.text
    match marker_id with
    | some _ =>
      match s.stack with
      | [] => .ok s
      | e :: rest => .ok { s with stack := rest, written := s.written ++ [e] }
    | none =>
      match candidate_id with
      | some cid => accept_candidate ctx s line cid
      | none =>
        if line.role == some "spanning_reference" then .ok s
        else if is_label_line ctx line || top_in_footnotes ctx line then .ok s
        else
          match s.stack with
          | [] => .ok s
          | e :: rest =>
            let e2 := { e with lines := e.lines ++ [line.text], end_page := ctx.page_num }
            .ok { s with stack := e2 :: rest }

/-- The stack invariant: depths strictly increase from bottom to top
(head = top, so strictly decreasing along the list), and every open
entry's id has been recorded in `section_occurrences`. -/
def StackInv (s : TraversalState) : Prop :=
  List.Pairwise (fun a b => b.depth < a.depth) s.stack ∧
    ∀ e ∈ s.stack, e.id ∈ s.occurrences

theorem popWhile_remaining_suffix (new_depth : Nat) (cid : String) :
    ∀ l : List SectionEntry, (popWhile new_depth cid l).2 <:+ l := by
  intro l
  induction l with
  | nil => exact List.nil_suffix
  | cons e rest ih =>
    unfold popWhile
    by_cases hc : new_depth ≤ e.depth ∧ cid ≠ e.id
    · rw [if_pos hc]
      exact ih.trans (List.suffix_cons e rest)
    · rw [if_neg hc]

theorem popWhile_remaining_head (new_depth : Nat) (cid : String) :
    ∀ (l : List SectionEntry) (e : SectionEntry) (t : List SectionEntry),
      (popWhile new_depth cid l).2 = e :: t →
        ¬(new_depth ≤ e.depth ∧ cid ≠ e.id) := by
  intro l
  induction l with
  | nil => intro e t h; simp [popWhile] at h
  | cons f rest ih =>
    intro e t h
    unfold popWhile at h
    by_cases hc : new_depth ≤ f.depth ∧ cid ≠ f.id
    · rw [if_pos hc] at h
      exact ih e t h
    · rw [if_neg hc] at h
      simp only [List.cons.injEq] at h
      rw [← h.1]
      exact hc

theorem process_section_line_toc (ctx : LineCtx) (s : TraversalState)
    (line : OrderedLine) (htoc : ctx.is_toc_page = true) :
    process_section_line ctx s line = .ok s := by
  unfold process_section_line
  rw [if_pos htoc]

theorem process_section_line_marker (ctx : LineCtx) (s : TraversalState)
    (line : OrderedLine) (mid : String) (htoc : ctx.is_toc_page = false)
    (hm : parse_section_marker_line line.text = some mid) :
    process_section_line ctx s line =
      (match s.stack with
        | [] => .ok s
        | e :: rest => .ok { s with stack := rest, written := s.written ++ [e] }) := by
  unfold process_section_line
  rw [if_neg (by simp [htoc]), hm]

theorem process_section_line_accept (ctx : LineCtx) (s : TraversalState)
    (line : OrderedLine) (cid : String) (htoc : ctx.is_toc_page = false)
    (hm : parse_section_marker_line line.text = none)
    (hc : parse_true_section_heading line.text = some cid) :
    process_section_line ctx s line = accept_candidate ctx s line cid := by
  unfold process_section_line
  rw [if_neg (by simp [htoc]), hm, hc]

theorem process_section_line_body (ctx : LineCtx) (s : TraversalState)
    (line : OrderedLine) (htoc : ctx.is_toc_page = false)
    (hm : parse_section_marker_line line.text = none)
    (hc : parse_true_section_heading line.text = none) :
    process_section_line ctx s line =
      (if line.role == some "spanning_reference" then .ok s
        else if is_label_line ctx line || top_in_footnotes ctx line then .ok s
        else
          match s.stack with
          | [] => .ok s
          | e :: rest =>
            .ok { s with stack := ({ e with lines := e.lines ++ [line.text], end_page := ctx.page_num } : SectionEntry) :: rest }) := by
  unfold process_section_line
  rw [if_neg (by simp [htoc]), hm, hc]

/-- **C5.** At every moment of document traversal the open-section
stack has strictly increasing depth from bottom to top; every operation
of the loop body — marker pop, heading accept (which first flushes
entries of depth `≥` the new depth), and body-line append — preserves
this invariant (together with the companion fact that every open id has
been recorded as accepted, which the accept path needs: a candidate
equal to a surviving entry's id is rejected as `SECTION_DUPLICATE`
before any push).  The final flush after the last page only pops, so it
preserves the invariant trivially. -/
theorem process_section_line_preserves_stack_invariant (ctx : LineCtx)
    (s : TraversalState) (line : OrderedLine) (s2 : TraversalState)
    (hinv : StackInv s) (h : process_section_line ctx s line = .ok s2) :
    StackInv s2 := by
  by_cases htoc : ctx.is_toc_page = true
  · rw [process_section_line_toc ctx s line htoc] at h
    injection h with h2
    rw [← h2]
    exact hinv
  · rw [Bool.not_eq_true] at htoc
    cases hm : parse_section_marker_line line.text with
    | some mid =>
      rw [process_section_line_marker ctx s line mid htoc hm] at h
      cases hs : s.stack with
      | nil =>
        rw [hs] at h
        injection h with h2
        rw [← h2]
        exact hinv
      | cons e rest =>
        rw [hs] at h
        injection h with h2
        rw [← h2]
        constructor
        · have := hinv.1
          rw [hs] at this
          exact this.of_cons
        · intro x hx
          exact hinv.2 x (by rw [hs]; exact List.mem_cons_of_mem _ hx)
    | none =>
      cases hcand : parse_true_section_heading line.text with
      | some cid =>
        rw [process_section_line_accept ctx s line cid htoc hm hcand] at h
        unfold accept_candidate at h
        by_cases h1 : (line.role == some "spanning_reference" ||
            is_label_line ctx line || top_in_footnotes ctx line) = true
        · rw [if_pos h1] at h
          exact absurd h (by simp)
        · rw [if_neg h1] at h
          by_cases h2 : (match s.stack.head? with
              | some e => cid == e.id
              | none => false) = true
          · rw [if_pos h2] at h
            exact absurd h (by simp)
          · rw [if_neg h2] at h
            by_cases h3 : cid ∈ s.occurrences
            · rw [if_pos h3] at h
              exact absurd h (by simp)
            · rw [if_neg h3] at h
              injection h with h4
              rw [← h4]
              have hsuffix := popWhile_remaining_suffix (section_id_depth cid) cid s.stack
              have hsub := hsuffix.sublist
              have hpw_r : List.Pairwise (fun a b => b.depth < a.depth)
                  (popWhile (section_id_depth cid) cid s.stack).2 :=
                hinv.1.sublist hsub
              have hmem_r : ∀ x ∈ (popWhile (section_id_depth cid) cid s.stack).2,
                  x ∈ s.stack := fun x hx => hsub.mem hx
              constructor
              · -- strictly decreasing depths with the new top
                refine List.Pairwise.cons ?_ hpw_r
                intro x hx
                show x.depth < section_id_depth cid
                cases hr : (popWhile (section_id_depth cid) cid s.stack).2 with
                | nil => rw [hr] at hx; simp at hx
                | cons e t =>
                  have hhead := popWhile_remaining_head (section_id_depth cid) cid
                    s.stack e t hr
                  have hne : cid ≠ e.id := by
                    intro heq
                    apply h3
                    have : e ∈ s.stack := hmem_r e (by rw [hr]; exact List.mem_cons_self _ _)
                    rw [heq]
                    exact hinv.2 e this
                  have hdlt : e.depth < section_id_depth cid := by
                    by_contra hge
                    exact hhead ⟨by omega, hne⟩
                  rw [hr] at hx
                  rcases List.mem_cons.mp hx with rfl | hx
                  · exact hdlt
                  · have := hpw_r
                    rw [hr] at this
                    have hlt := (List.pairwise_cons.mp this).1 x hx
                    omega
              · intro x hx
                rcases List.mem_cons.mp hx with rfl | hx
                · simp
                · have : x.id ∈ s.occurrences := hinv.2 x (hmem_r x hx)
                  exact List.mem_append_left _ this
      | none =>
        rw [process_section_line_body ctx s line htoc hm hcand] at h
        by_cases h1 : (line.role == some "spanning_reference") = true
        · rw [if_pos h1] at h
          injection h with h2
          rw [← h2]
          exact hinv
        · rw [if_neg h1] at h
          by_cases h2 : (is_label_line ctx line || top_in_footnotes ctx line) = true
          · rw [if_pos h2] at h
            injection h with h3
            rw [← h3]
            exact hinv
          · rw [if_neg h2] at h
            cases hs : s.stack with
            | nil =>
              rw [hs] at h
              injection h with h3
              rw [← h3]
              exact hinv
            | cons e rest =>
              rw [hs] at h
              injection h with h3
              rw [← h3]
              have hpw := hinv.1
              rw [hs] at hpw
              have hcons := List.pairwise_cons.mp hpw
              constructor
              · exact List.Pairwise.cons (fun x hx => hcons.1 x hx) hcons.2
              · intro x hx
                rcases List.mem_cons.mp hx with rfl | hx
                · exact hinv.2 e (by rw [hs]; exact List.mem_cons_self _ _)
                · exact hinv.2 x (by rw [hs]; exact List.mem_cons_of_mem _ hx)

/-- Witness for `process_section_line_preserves_stack_invariant`:
accepting `R301.1 Scope.` on an empty stack yields a one-entry stack
satisfying the invariant. -/
theorem process_section_line_preserves_stack_invariant_witness :
    StackInv ⟨[⟨"R301.1", 2, ["R301.1 Scope."], 1, 1, "Chapter 3"⟩],
      ["R301.1"], []⟩ := by
  exact process_section_line_preserves_stack_invariant
    ⟨false, [], [], 1, "Chapter 3"⟩ ⟨[], [], []⟩
    ⟨"R301.1 Scope.", 100, 36, some 10, true, none, none⟩
    ⟨[⟨"R301.1", 2, ["R301.1 Scope."], 1, 1, "Chapter 3"⟩], ["R301.1"], []⟩
    ⟨List.Pairwise.nil, by simp⟩ (by decide)

/-- **C1 (code bug).** The claim — and the source's own pipeline
comments ("section boundary detection (regex + header position/style
checks)") — say a body line is accepted as a section heading only when,
besides matching a canonical-id pattern, it passes the header position
and header style tests.  The traversal of `main` (lines 3096–3133)
accepts headings via `parse_true_section_heading`, a pure text test;
`detect_section_start`, the function that gates on
`passes_header_position_style`, is never called.  Concretely: a
non-bold, body-sized line far from the column margin fails
`passes_header_position_style` yet is accepted and pushed. -/
theorem heading_accepted_without_position_style_check :
    parse_true_section_heading "R301.1 General provisions." = some "R301.1" ∧
    passes_header_position_style
        ⟨"R301.1 General provisions.", 100, 300, some 10, false, none, none⟩
        ⟨50, none, none, some 5⟩ 10 = false ∧
    process_section_line ⟨false, [], [], 7, "Chapter 3"⟩ ⟨[], [], []⟩
        ⟨"R301.1 General provisions.", 100, 300, some 10, false, none, none⟩ =
      .ok ⟨[⟨"R301.1", 2, ["R301.1 General provisions."], 7, 7, "Chapter 3"⟩],
        ["R301.1"], []⟩ := by
  refine ⟨by decide, by decide, by decide⟩

end IRC
